import Mathlib

/-
Verification development for the Space-Apps pipeline orchestrator
(scripts/run_pipeline.py).

The script is a single linear orchestration:
  STEP 1  run the GEE export script (external subprocess; its only effect is
          on the remote Drive, which we model as a time-indexed state)
  STEP 2  poll Google Drive until the export folder is non-empty or MAX_WAIT
          elapses (list_drive_files + while loop + time.sleep)
  STEP 3  download each listed file into LOCAL_EXPORTS, skipping files that
          already exist locally
  STEP 4  run the local processing script (external subprocess, abstracted
          as a parameter on filesystem states)
  STEP 5  create outputs/processed/run_<timestamp> and move every entry of
          outputs/gee/ and outputs/plots/ into it (os.rename)
  STEP 6  write SUMMARY.txt into the run directory.

Time model for the poller: listing calls are instantaneous and each
time.sleep(WAIT_TIME) advances the clock by WAIT_TIME, so the drive state is
indexed by poll-attempt number.  The loop is embedded with explicit fuel
(MW + 1 suffices whenever WAIT_TIME > 0, which is proved below); running out
of fuel models the genuine nontermination of the Python loop at
WAIT_TIME = 0.

The local filesystem is a flat two-level model: a list of existing
directories plus an association list from (directory, name) to file content.
os.rename failures (permission, cross-device, ...) are modelled by an oracle
`fail : String → String → Bool` consulted per (source directory, name).
-/

-- ---------------------------------------------------------------------------
-- Remote side: Drive files and list_drive_files
-- ---------------------------------------------------------------------------

/-- One object stored in Google Drive, with the metadata fields the script
queries: title, mime type, trashed flag, parent folder ids, and content. -/
structure DriveFile where
  id : String
  title : String
  mimeType : String
  trashed : Bool
  parents : List String
  content : String
  deriving DecidableEq, Repr

def folderMime : String := "application/vnd.google-apps.folder"

/-- The folder query predicate of list_drive_files:
title = folder_name and mimeType = folder and trashed=false. -/
def isFolderMatch (folderName : String) (f : DriveFile) : Bool :=
  decide (f.title = folderName) && decide (f.mimeType = folderMime) && !f.trashed

/-- The contents query predicate: folder_id in parents and trashed=false. -/
def inFolder (folderId : String) (f : DriveFile) : Bool :=
  decide (folderId ∈ f.parents) && !f.trashed

/-- list_drive_files(folder_name): resolve the folder by exact title match
(excluding trashed folders), raising if no folder matches, then list its
non-trashed children.  Like the source, an ambiguous match takes the first
result. -/
def list_drive_files (drive : List DriveFile) (folderName : String) :
    Except String (List DriveFile) :=
  match drive.filter (isFolderMatch folderName) with
  | [] => .error ("Drive folder " ++ folderName ++ " not found")
  | folder :: _ => .ok (drive.filter (inFolder folder.id))

-- ---------------------------------------------------------------------------
-- STEP 2: the polling loop
-- ---------------------------------------------------------------------------

/-- Outcome of the STEP 2 while-loop.  `attempts` counts listing calls made;
`elapsed` is the wall-clock time in seconds when the loop ends.  `notFound`
is the exception escaping from list_drive_files (folder not resolved), with
the index of the attempt at which it was raised. -/
inductive PollOutcome where
  | found (files : List DriveFile) (attempts : Nat) (elapsed : Nat)
  | timeout (attempts : Nat) (elapsed : Nat)
  | notFound (msg : String) (attempts : Nat)
  deriving DecidableEq, Repr

/-- The body of `while time.time() - start_time < MAX_WAIT`, with explicit
fuel.  `t` is elapsed time, `k` the number of listings already made.  Each
iteration checks the clock at the top, lists the folder (attempt `k`),
returns on a non-empty listing, and otherwise sleeps a full `W` seconds. -/
def pollAux (drv : Nat → Except String (List DriveFile)) (W MW : Nat) :
    Nat → Nat → Nat → Option PollOutcome
  | 0, _, _ => none
  | fuel + 1, t, k =>
    if t < MW then
      match drv k with
      | .error msg => some (.notFound msg k)
      | .ok files =>
        if files = [] then pollAux drv W MW fuel (t + W) (k + 1)
        else some (.found files (k + 1) t)
    else some (.timeout k t)

/-- STEP 2 entry point: run the polling loop from time 0.  Fuel MW + 1 is
sufficient whenever 0 < W (proved below), so `none` occurs exactly when the
Python loop would never terminate. -/
def waitForExports (drv : Nat → Except String (List DriveFile)) (W MW : Nat) :
    Option PollOutcome :=
  pollAux drv W MW (MW + 1) 0 0

-- ---------------------------------------------------------------------------
-- Local filesystem model
-- ---------------------------------------------------------------------------

/-- Flat two-level filesystem: existing directories, and files keyed by
(directory, name) with string contents. -/
structure FS where
  dirs : List String
  files : List ((String × String) × String)
  deriving DecidableEq, Repr

def FS.hasFile (fs : FS) (d n : String) : Bool :=
  fs.files.any (fun p => decide (p.1 = (d, n)))

def FS.lookupFile (fs : FS) (d n : String) : Option String :=
  (fs.files.find? (fun p => decide (p.1 = (d, n)))).map Prod.snd

/-- Writing a file replaces any previous file at the same (dir, name) key. -/
def FS.writeFile (fs : FS) (d n c : String) : FS :=
  { fs with files := ((d, n), c) :: fs.files.filter (fun p => !decide (p.1 = (d, n))) }

def FS.removeFile (fs : FS) (d n : String) : FS :=
  { fs with files := fs.files.filter (fun p => !decide (p.1 = (d, n))) }

/-- os.listdir: the names of the files under directory `d`. -/
def FS.listdir (fs : FS) (d : String) : List String :=
  (fs.files.filter (fun p => decide (p.1.1 = d))).map (fun p => p.1.2)

/-- os.makedirs(d, exist_ok=True): create `d` if absent, never fail. -/
def FS.makedirs (fs : FS) (d : String) : FS :=
  if d ∈ fs.dirs then fs else { fs with dirs := d :: fs.dirs }

/-- os.rename(src, dst) at the filesystem level: move the content stored at
(sd, sn) to (dd, dn), silently replacing any file already at (dd, dn).  The
script only renames names it just listed, so the source always exists there;
a missing source is a no-op in the model. -/
def FS.rename (fs : FS) (sd sn dd dn : String) : FS :=
  match fs.lookupFile sd sn with
  | none => fs
  | some c => (fs.removeFile sd sn).writeFile dd dn c

-- ---------------------------------------------------------------------------
-- Configuration constants of the script
-- ---------------------------------------------------------------------------

def EXPORT_FOLDER : String := "SpaceApps_SAR"
def LOCAL_EXPORTS : String := "outputs/gee/"
def LOCAL_PROCESSED : String := "outputs/processed/"
def PLOTS_DIR : String := "outputs/plots/"
def WAIT_TIME : Nat := 300
def MAX_WAIT : Nat := 7200

/-- The two directories swept by the STEP 5 move loop, in program order. -/
def sourceFolders : List String := [LOCAL_EXPORTS, PLOTS_DIR]

def finalDirOf (timestamp : String) : String :=
  LOCAL_PROCESSED ++ "run_" ++ timestamp

-- ---------------------------------------------------------------------------
-- STEP 3: download loop
-- ---------------------------------------------------------------------------

/-- The STEP 3 for-loop: for each listed file, skip it if a local file with
its title already exists, otherwise download it (GetContentFile writes the
entry content at localDir/title).  The returned list records, in order, the
titles for which GetContentFile was invoked (the observable download trace). -/
def fetchLoop (localDir : String) : List DriveFile → FS → FS × List String
  | [], fs => (fs, [])
  | e :: rest, fs =>
    if fs.hasFile localDir e.title then fetchLoop localDir rest fs
    else
      let res := fetchLoop localDir rest (fs.writeFile localDir e.title e.content)
      (res.1, e.title :: res.2)

/-- STEP 3: os.makedirs(LOCAL_EXPORTS, exist_ok=True) then the download loop. -/
def fetchAll (entries : List DriveFile) (localDir : String) (fs : FS) :
    FS × List String :=
  fetchLoop localDir entries (fs.makedirs localDir)

-- ---------------------------------------------------------------------------
-- STEP 5: move loop
-- ---------------------------------------------------------------------------

/-- The inner move loop over one source folder's listing.  A failing
os.rename aborts the loop, escaping with the offending (folder, name) and
the filesystem state at that moment. -/
def moveEntries (fail : String → String → Bool) (folder finalD : String) :
    List String → FS → Except (String × String × FS) FS
  | [], fs => .ok fs
  | n :: rest, fs =>
    if fail folder n then .error (folder, n, fs)
    else moveEntries fail folder finalD rest (fs.rename folder n finalD n)

/-- The outer STEP 5 loop: for each folder in program order, if it exists,
move every entry of its current listing into finalD. -/
def moveAll (fail : String → String → Bool) (finalD : String) :
    List String → FS → Except (String × String × FS) FS
  | [], fs => .ok fs
  | d :: rest, fs =>
    if d ∈ fs.dirs then
      match moveEntries fail d finalD (fs.listdir d) fs with
      | .error e => .error e
      | .ok fs' => moveAll fail finalD rest fs'
    else moveAll fail finalD rest fs

/-- STEP 5: create LOCAL_PROCESSED and the run directory (exist_ok=True),
then move the contents of the source folders into the run directory. -/
def archiveStep (fail : String → String → Bool) (timestamp : String) (fs : FS) :
    Except (String × String × FS) (FS × String) :=
  match moveAll fail (finalDirOf timestamp) sourceFolders
      ((fs.makedirs LOCAL_PROCESSED).makedirs (finalDirOf timestamp)) with
  | .error e => .error e
  | .ok fs4 => .ok (fs4, finalDirOf timestamp)

-- ---------------------------------------------------------------------------
-- STEP 6: summary
-- ---------------------------------------------------------------------------

/-- The exact text STEP 6 writes to SUMMARY.txt. -/
def summaryText (timestamp : String) (fileCount : Nat) : String :=
  "SAR Tren Maya Analysis - Pipeline Run\n" ++
  "Timestamp: " ++ timestamp ++ "\n" ++
  "Files processed: " ++ toString fileCount ++ "\n" ++
  "Steps:\n" ++
  " 1) Exported from GEE\n" ++
  " 2) Downloaded from Drive\n" ++
  " 3) Processed locally (filters, time-series, change maps)\n" ++
  " 4) Stored in outputs folder\n"

-- ---------------------------------------------------------------------------
-- The whole run
-- ---------------------------------------------------------------------------

inductive RunError where
  | exportFailure
  | pollFuelExhausted
  | containerNotFound (msg : String)
  | exportTimeout
  | processingFailure
  | relocationError (srcDir name : String)
  deriving DecidableEq, Repr

/-- A finished run: either success with the final filesystem and the run
directory, or the uncaught exception that killed the script together with
the filesystem state left on disk at that moment. -/
inductive RunResult where
  | ok (fs : FS) (finalDir : String)
  | err (e : RunError) (fs : FS)
  deriving DecidableEq, Repr

/-- STEP 5 error handling plus STEP 6: a failed move kills the script there
(the partial filesystem is what remains on disk); on success, SUMMARY.txt is
written into the run directory. -/
def afterArchive (timestamp : String) (fileCount : Nat)
    (res : Except (String × String × FS) (FS × String)) : RunResult :=
  match res with
  | .error (d, n, fsAtError) => .err (.relocationError d n) fsAtError
  | .ok (fs4, fd) =>
    .ok (fs4.writeFile fd "SUMMARY.txt" (summaryText timestamp fileCount)) fd

/-- STEP 3 through STEP 6, given the listing the poller returned: download,
run the processing script, archive, summarize. -/
def stepsFrom3 (proc : FS → Except Unit FS) (fail : String → String → Bool)
    (timestamp : String) (files : List DriveFile) (fs0 : FS) : RunResult :=
  match proc (fetchAll files LOCAL_EXPORTS fs0).1 with
  | .error _ => .err .processingFailure (fetchAll files LOCAL_EXPORTS fs0).1
  | .ok fs2 => afterArchive timestamp files.length (archiveStep fail timestamp fs2)

/-- The whole script, STEP 1 through STEP 6.  `driveAt k` is the remote
Drive state at poll attempt `k` (the export job submitted in STEP 1
populates it over time); `proc` is the external STEP 4 processing script as
a transformation of local filesystem states that may fail; `fail` is the
os.rename failure oracle; `exportOk` is the STEP 1 subprocess outcome. -/
def runPipeline (driveAt : Nat → List DriveFile) (W MW : Nat)
    (proc : FS → Except Unit FS) (fail : String → String → Bool)
    (timestamp : String) (exportOk : Bool) (fs0 : FS) : RunResult :=
  if exportOk = false then .err .exportFailure fs0 else
  match waitForExports (fun k => list_drive_files (driveAt k) EXPORT_FOLDER) W MW with
  | none => .err .pollFuelExhausted fs0
  | some (.notFound msg _) => .err (.containerNotFound msg) fs0
  | some (.timeout _ _) => .err .exportTimeout fs0
  | some (.found files _ _) => stepsFrom3 proc fail timestamp files fs0

-- ---------------------------------------------------------------------------
-- Polling-loop lemmas
-- ---------------------------------------------------------------------------

/-- With always-empty listings, the loop times out, having made `n` listing
attempts and slept `n` full intervals, where `n` is characterized by the
clock check at the top of the loop. -/
theorem pollAux_empty (drv : Nat → Except String (List DriveFile)) (W MW : Nat)
    (hW : 0 < W) (hemp : ∀ j, drv j = .ok []) :
    ∀ fuel t k, MW - t < fuel →
      ∃ n, pollAux drv W MW fuel t k = some (.timeout (k + n) (t + n * W)) ∧
        MW ≤ t + n * W ∧ ∀ m, m < n → t + m * W < MW := by
  intro fuel
  induction fuel with
  | zero => intro t k h; omega
  | succ f ih =>
    intro t k h
    by_cases ht : t < MW
    · obtain ⟨n, hn, hle, hlt⟩ := ih (t + W) (k + 1) (by omega)
      refine ⟨n + 1, ?_, ?_, ?_⟩
      · have e1 : k + 1 + n = k + (n + 1) := by omega
        have e2 : t + W + n * W = t + (n + 1) * W := by ring
        have estep : pollAux drv W MW (f + 1) t k = pollAux drv W MW f (t + W) (k + 1) := by
          rw [pollAux, if_pos ht, hemp k]
          rfl
        rw [estep, hn, e1, e2]
      · have e2 : t + W + n * W = t + (n + 1) * W := by ring
        rw [← e2]; exact hle
      · intro m hm
        match m with
        | 0 => simpa using ht
        | m' + 1 =>
          have e3 : t + (m' + 1) * W = t + W + m' * W := by ring
          rw [e3]; exact hlt m' (by omega)
    · exact ⟨0, by rw [pollAux, if_neg ht]; simp, by simpa using Nat.le_of_not_lt ht,
        by intro m hm; omega⟩

/-- With always-empty listings (and a positive poll interval), the poller
fails with the timeout error after `n` attempts and `n` full sleeps, where
`MW ≤ n * W` and every earlier clock check was still inside the window. -/
theorem waitForExports_empty (drv : Nat → Except String (List DriveFile))
    (W MW : Nat) (hW : 0 < W) (hemp : ∀ j, drv j = .ok []) :
    ∃ n, waitForExports drv W MW = some (.timeout n (n * W)) ∧
      MW ≤ n * W ∧ ∀ m, m < n → m * W < MW := by
  obtain ⟨n, hn, hle, hlt⟩ := pollAux_empty drv W MW hW hemp (MW + 1) 0 0 (by omega)
  exact ⟨n, by simpa [waitForExports] using hn, by simpa using hle,
    by intro m hm; simpa using hlt m hm⟩

/-- If the first `n` listings are empty and listing `n` is non-empty while
the clock is still inside the window, the loop returns exactly that listing,
as a snapshot, after `n + 1` listing calls and `n` sleeps. -/
theorem pollAux_found (drv : Nat → Except String (List DriveFile)) (W MW : Nat)
    (files : List DriveFile) (hne : files ≠ []) (hW : 0 < W) :
    ∀ n fuel t k, MW - t < fuel →
      (∀ j, j < n → drv (k + j) = .ok []) → drv (k + n) = .ok files →
      t + n * W < MW →
      pollAux drv W MW fuel t k = some (.found files (k + n + 1) (t + n * W)) := by
  intro n
  induction n with
  | zero =>
    intro fuel t k hfuel _ hk ht
    simp only [Nat.add_zero] at hk
    simp only [Nat.zero_mul, Nat.add_zero] at ht ⊢
    match fuel with
    | 0 => omega
    | f + 1 =>
      rw [pollAux, if_pos ht, hk]
      simp [hne]
  | succ n ih =>
    intro fuel t k hfuel hpre hk ht
    have hsm : t + (n + 1) * W = t + W + n * W := by ring
    rw [hsm] at ht
    have htW : t + W ≤ MW := by
      have := Nat.le_add_right (t + W) (n * W)
      omega
    have ht0 : t < MW := by omega
    match fuel with
    | 0 => omega
    | f + 1 =>
      have h0 : drv k = .ok [] := by simpa using hpre 0 (by omega)
      have estep : pollAux drv W MW (f + 1) t k = pollAux drv W MW f (t + W) (k + 1) := by
        rw [pollAux, if_pos ht0, h0]
        rfl
      rw [estep]
      have hpre' : ∀ j, j < n → drv (k + 1 + j) = .ok [] := by
        intro j hj
        have e : k + 1 + j = k + (j + 1) := by omega
        rw [e]; exact hpre (j + 1) (by omega)
      have hk' : drv (k + 1 + n) = .ok files := by
        have e : k + 1 + n = k + (n + 1) := by omega
        rw [e]; exact hk
      have := ih f (t + W) (k + 1) (by omega) hpre' hk' ht
      rw [this]
      have e1 : k + 1 + n + 1 = k + (n + 1) + 1 := by omega
      have e2 : t + W + n * W = t + (n + 1) * W := by ring
      rw [e1, e2]

/-- waitForExports version of `pollAux_found`. -/
theorem waitForExports_found (drv : Nat → Except String (List DriveFile))
    (W MW n : Nat) (files : List DriveFile) (hne : files ≠ []) (hW : 0 < W)
    (hpre : ∀ j, j < n → drv j = .ok []) (hn : drv n = .ok files)
    (hwin : n * W < MW) :
    waitForExports drv W MW = some (.found files (n + 1) (n * W)) := by
  have := pollAux_found drv W MW files hne hW n (MW + 1) 0 0 (by omega)
    (by intro j hj; simpa using hpre j hj) (by simpa using hn)
    (by simpa using hwin)
  simpa [waitForExports] using this

/-- Any listing the loop returns was produced by some listing call. -/
theorem pollAux_found_src (drv : Nat → Except String (List DriveFile))
    (W MW : Nat) (files : List DriveFile) (a e : Nat) :
    ∀ fuel t k, pollAux drv W MW fuel t k = some (.found files a e) →
      ∃ j, drv j = .ok files := by
  intro fuel
  induction fuel with
  | zero => intro t k h; simp [pollAux] at h
  | succ f ih =>
    intro t k h
    rw [pollAux] at h
    by_cases ht : t < MW
    · rw [if_pos ht] at h
      cases hd : drv k with
      | error msg => rw [hd] at h; simp at h
      | ok fl =>
        rw [hd] at h
        by_cases hfl : fl = []
        · simp only [hfl, if_pos rfl] at h
          exact ih (t + W) (k + 1) h
        · simp only [if_neg hfl, Option.some.injEq, PollOutcome.found.injEq] at h
          exact ⟨k, by rw [hd, h.1]⟩
    · rw [if_neg ht] at h; simp at h

-- ---------------------------------------------------------------------------
-- Filesystem pointwise lemmas
-- ---------------------------------------------------------------------------

theorem find?_filter_ne (l : List ((String × String) × String)) (key k' : String × String)
    (h : k' ≠ key) :
    (l.filter (fun p => !decide (p.1 = key))).find? (fun p => decide (p.1 = k')) =
      l.find? (fun p => decide (p.1 = k')) := by
  induction l with
  | nil => rfl
  | cons a l ih =>
    rw [List.filter_cons]
    by_cases ha : a.1 = key
    · rw [if_neg (by simp [ha]), ih, List.find?_cons_of_neg]
      simp only [decide_eq_true_eq]
      rw [ha]
      exact fun hh => h hh.symm
    · rw [if_pos (by simp [ha])]
      by_cases hk : a.1 = k'
      · rw [List.find?_cons_of_pos _ (by simp [hk]), List.find?_cons_of_pos _ (by simp [hk])]
      · rw [List.find?_cons_of_neg _ (by simp [hk]), List.find?_cons_of_neg _ (by simp [hk]), ih]

theorem find?_filter_self (l : List ((String × String) × String)) (key : String × String) :
    (l.filter (fun p => !decide (p.1 = key))).find? (fun p => decide (p.1 = key)) = none := by
  rw [List.find?_eq_none]
  intro x hx
  have := List.mem_filter.mp hx
  simpa using this.2

theorem FS.lookup_writeFile (fs : FS) (d n c d' n' : String) :
    (fs.writeFile d n c).lookupFile d' n' =
      if (d', n') = (d, n) then some c else fs.lookupFile d' n' := by
  by_cases h : (d', n') = (d, n)
  · rw [if_pos h]
    unfold FS.writeFile FS.lookupFile
    rw [List.find?_cons_of_pos]
    · rfl
    · simpa using h.symm
  · rw [if_neg h]
    unfold FS.writeFile FS.lookupFile
    rw [List.find?_cons_of_neg]
    · rw [find?_filter_ne _ _ _ h]
    · simp only [decide_eq_true_eq]
      exact fun hh => h hh.symm

theorem FS.lookup_removeFile (fs : FS) (d n d' n' : String) :
    (fs.removeFile d n).lookupFile d' n' =
      if (d', n') = (d, n) then none else fs.lookupFile d' n' := by
  by_cases h : (d', n') = (d, n)
  · rw [if_pos h]
    unfold FS.removeFile FS.lookupFile
    rw [h, find?_filter_self]
    rfl
  · rw [if_neg h]
    unfold FS.removeFile FS.lookupFile
    rw [find?_filter_ne _ _ _ h]

theorem FS.dirs_writeFile (fs : FS) (d n c : String) : (fs.writeFile d n c).dirs = fs.dirs := rfl

theorem FS.dirs_removeFile (fs : FS) (d n : String) : (fs.removeFile d n).dirs = fs.dirs := rfl

theorem FS.dirs_rename (fs : FS) (sd sn dd dn : String) :
    (fs.rename sd sn dd dn).dirs = fs.dirs := by
  unfold FS.rename
  cases fs.lookupFile sd sn <;> rfl

theorem FS.rename_of_none (fs : FS) (sd sn dd dn : String)
    (h : fs.lookupFile sd sn = none) : fs.rename sd sn dd dn = fs := by
  unfold FS.rename
  rw [h]

theorem FS.lookup_rename_of_some (fs : FS) (sd sn dd dn c : String)
    (h : fs.lookupFile sd sn = some c) (d' n' : String) :
    (fs.rename sd sn dd dn).lookupFile d' n' =
      if (d', n') = (dd, dn) then some c
      else if (d', n') = (sd, sn) then none
      else fs.lookupFile d' n' := by
  unfold FS.rename
  rw [h, FS.lookup_writeFile, FS.lookup_removeFile]

/-- listdir lists exactly the names with a file present in the directory. -/
theorem FS.mem_listdir_iff (fs : FS) (d n : String) :
    n ∈ fs.listdir d ↔ ∃ c, fs.lookupFile d n = some c := by
  unfold FS.listdir FS.lookupFile
  constructor
  · intro h
    obtain ⟨p, hp, hpn⟩ := List.mem_map.mp h
    have hmem := List.mem_filter.mp hp
    have hd : p.1.1 = d := by simpa using hmem.2
    have hkey : p.1 = (d, n) := by
      obtain ⟨⟨a, b⟩, c⟩ := p
      simp only at hd hpn
      simp [hd, hpn]
    have hsome : (fs.files.find? (fun q => decide (q.1 = (d, n)))).isSome = true := by
      rw [List.find?_isSome]
      exact ⟨p, hmem.1, by simpa using hkey⟩
    obtain ⟨q, hq⟩ := Option.isSome_iff_exists.mp hsome
    exact ⟨q.2, by rw [hq]; rfl⟩
  · intro ⟨c, hc⟩
    cases hq : fs.files.find? (fun q => decide (q.1 = (d, n))) with
    | none => rw [hq] at hc; simp at hc
    | some q =>
      have hqmem : q ∈ fs.files := List.mem_of_find?_eq_some hq
      have hqkey : q.1 = (d, n) := by simpa using List.find?_some hq
      refine List.mem_map.mpr ⟨q, List.mem_filter.mpr ⟨hqmem, by simp [hqkey]⟩, by rw [hqkey]⟩

-- ---------------------------------------------------------------------------
-- Inner move-loop lemmas
-- ---------------------------------------------------------------------------

theorem prodFst {a b c d : String} (h : (a, b) = (c, d)) : a = c := congrArg Prod.fst h

theorem prodSnd {a b c d : String} (h : (a, b) = (c, d)) : b = d := congrArg Prod.snd h

theorem moveEntries_ok_of_noFail (fail : String → String → Bool) (folder finalD : String)
    (hnf : ∀ d n, fail d n = false) :
    ∀ (names : List String) (fs : FS),
      ∃ fs', moveEntries fail folder finalD names fs = .ok fs' := by
  intro names
  induction names with
  | nil => intro fs; exact ⟨fs, rfl⟩
  | cons n rest ih =>
    intro fs
    rw [moveEntries, if_neg (by rw [hnf folder n]; exact fun hh => Bool.noConfusion hh)]
    exact ih _

theorem moveEntries_dirs (fail : String → String → Bool) (folder finalD : String) :
    ∀ (names : List String) (fs fs' : FS),
      moveEntries fail folder finalD names fs = .ok fs' → fs'.dirs = fs.dirs := by
  intro names
  induction names with
  | nil => intro fs fs' h; rw [moveEntries] at h; cases h; rfl
  | cons n rest ih =>
    intro fs fs' h
    rw [moveEntries] at h
    by_cases hf : fail folder n = true
    · rw [if_pos hf] at h; cases h
    · rw [if_neg hf] at h
      rw [ih _ _ h, FS.dirs_rename]

theorem moveEntries_dirs_err (fail : String → String → Bool) (folder finalD : String) :
    ∀ (names : List String) (fs : FS) (a b : String) (fsE : FS),
      moveEntries fail folder finalD names fs = .error (a, b, fsE) → fsE.dirs = fs.dirs := by
  intro names
  induction names with
  | nil => intro fs a b fsE h; rw [moveEntries] at h; cases h
  | cons n rest ih =>
    intro fs a b fsE h
    rw [moveEntries] at h
    by_cases hf : fail folder n = true
    · rw [if_pos hf] at h; cases h; rfl
    · rw [if_neg hf] at h
      rw [ih _ _ _ _ h, FS.dirs_rename]

/-- Moves from one source folder touch only that folder and the destination:
any other directory's entries are untouched. -/
theorem moveEntries_lookup_other (fail : String → String → Bool) (folder finalD d' q : String)
    (hd1 : d' ≠ folder) (hd2 : d' ≠ finalD) :
    ∀ (names : List String) (fs fs' : FS),
      moveEntries fail folder finalD names fs = .ok fs' →
      fs'.lookupFile d' q = fs.lookupFile d' q := by
  intro names
  induction names with
  | nil => intro fs fs' h; rw [moveEntries] at h; cases h; rfl
  | cons n rest ih =>
    intro fs fs' h
    rw [moveEntries] at h
    by_cases hf : fail folder n = true
    · rw [if_pos hf] at h; cases h
    · rw [if_neg hf] at h
      rw [ih _ _ h]
      cases hc : fs.lookupFile folder n with
      | none => rw [FS.rename_of_none _ _ _ _ _ hc]
      | some c =>
        rw [FS.lookup_rename_of_some _ _ _ _ _ _ hc]
        rw [if_neg (fun hh => hd2 (prodFst hh)), if_neg (fun hh => hd1 (prodFst hh))]

/-- A name absent from the source folder stays absent: the loop never adds
entries to the source folder. -/
theorem moveEntries_none_mono (fail : String → String → Bool) (folder finalD q : String)
    (hne : folder ≠ finalD) :
    ∀ (names : List String) (fs fs' : FS),
      moveEntries fail folder finalD names fs = .ok fs' →
      fs.lookupFile folder q = none → fs'.lookupFile folder q = none := by
  intro names
  induction names with
  | nil => intro fs fs' h hq; rw [moveEntries] at h; cases h; exact hq
  | cons n rest ih =>
    intro fs fs' h hq
    rw [moveEntries] at h
    by_cases hf : fail folder n = true
    · rw [if_pos hf] at h; cases h
    · rw [if_neg hf] at h
      refine ih _ _ h ?_
      cases hc : fs.lookupFile folder n with
      | none => rw [FS.rename_of_none _ _ _ _ _ hc]; exact hq
      | some c =>
        rw [FS.lookup_rename_of_some _ _ _ _ _ _ hc]
        rw [if_neg (fun hh => hne (prodFst hh))]
        by_cases hqn : q = n
        · rw [if_pos (by rw [hqn])]
        · rw [if_neg (fun hh => hqn (prodSnd hh))]; exact hq

/-- Every listed name is gone from the source folder after a successful
sweep of its listing. -/
theorem moveEntries_src_gone (fail : String → String → Bool) (folder finalD : String)
    (hne : folder ≠ finalD) :
    ∀ (names : List String) (fs fs' : FS),
      moveEntries fail folder finalD names fs = .ok fs' →
      ∀ m ∈ names, fs'.lookupFile folder m = none := by
  intro names
  induction names with
  | nil => intro fs fs' h m hm; cases hm
  | cons n rest ih =>
    intro fs fs' h m hm
    rw [moveEntries] at h
    by_cases hf : fail folder n = true
    · rw [if_pos hf] at h; cases h
    · rw [if_neg hf] at h
      rcases List.mem_cons.mp hm with hmn | hmr
      · subst hmn
        refine moveEntries_none_mono fail folder finalD m hne rest _ _ h ?_
        cases hc : fs.lookupFile folder m with
        | none => rw [FS.rename_of_none _ _ _ _ _ hc]; exact hc
        | some c =>
          rw [FS.lookup_rename_of_some _ _ _ _ _ _ hc]
          rw [if_neg (fun hh => hne (prodFst hh)), if_pos rfl]
      · exact ih _ _ h m hmr

/-- Names absent from the source folder leave the destination entry of that
name untouched. -/
theorem moveEntries_dst_preserve (fail : String → String → Bool) (folder finalD q : String)
    (hne : folder ≠ finalD) :
    ∀ (names : List String) (fs fs' : FS),
      moveEntries fail folder finalD names fs = .ok fs' →
      fs.lookupFile folder q = none →
      fs'.lookupFile finalD q = fs.lookupFile finalD q := by
  intro names
  induction names with
  | nil => intro fs fs' h hq; rw [moveEntries] at h; cases h; rfl
  | cons n rest ih =>
    intro fs fs' h hq
    rw [moveEntries] at h
    by_cases hf : fail folder n = true
    · rw [if_pos hf] at h; cases h
    · rw [if_neg hf] at h
      cases hc : fs.lookupFile folder n with
      | none => rw [FS.rename_of_none _ _ _ _ _ hc] at h; exact ih _ _ h hq
      | some c =>
        have hqn : q ≠ n := by
          intro hh; rw [hh] at hq; rw [hq] at hc; cases hc
        have h1 : (fs.rename folder n finalD n).lookupFile folder q = none := by
          rw [FS.lookup_rename_of_some _ _ _ _ _ _ hc]
          rw [if_neg (fun hh => hne (prodFst hh)), if_neg (fun hh => hqn (prodSnd hh))]
          exact hq
        have h2 : (fs.rename folder n finalD n).lookupFile finalD q = fs.lookupFile finalD q := by
          rw [FS.lookup_rename_of_some _ _ _ _ _ _ hc]
          rw [if_neg (fun hh => hqn (prodSnd hh)), if_neg (fun hh => hne (prodFst hh).symm)]
        rw [ih _ _ h h1, h2]

/-- A listed name present in the source folder ends up at the destination
with exactly its source content. -/
theorem moveEntries_dst_move (fail : String → String → Bool) (folder finalD : String)
    (hne : folder ≠ finalD) :
    ∀ (names : List String) (fs fs' : FS) (m c : String),
      moveEntries fail folder finalD names fs = .ok fs' →
      m ∈ names → fs.lookupFile folder m = some c →
      fs'.lookupFile finalD m = some c := by
  intro names
  induction names with
  | nil => intro fs fs' m c h hm; cases hm
  | cons n rest ih =>
    intro fs fs' m c h hm hc
    rw [moveEntries] at h
    by_cases hf : fail folder n = true
    · rw [if_pos hf] at h; cases h
    · rw [if_neg hf] at h
      by_cases hmn : m = n
      · subst hmn
        have h1 : (fs.rename folder m finalD m).lookupFile folder m = none := by
          rw [FS.lookup_rename_of_some _ _ _ _ _ _ hc]
          rw [if_neg (fun hh => hne (prodFst hh)), if_pos rfl]
        have h2 : (fs.rename folder m finalD m).lookupFile finalD m = some c := by
          rw [FS.lookup_rename_of_some _ _ _ _ _ _ hc, if_pos rfl]
        rw [moveEntries_dst_preserve fail folder finalD m hne rest _ _ h h1, h2]
      · have hmr : m ∈ rest := by
          rcases List.mem_cons.mp hm with hh | hh
          · exact absurd hh hmn
          · exact hh
        cases hcn : fs.lookupFile folder n with
        | none => rw [FS.rename_of_none _ _ _ _ _ hcn] at h; exact ih _ _ m c h hmr hc
        | some cn =>
          have h3 : (fs.rename folder n finalD n).lookupFile folder m = some c := by
            rw [FS.lookup_rename_of_some _ _ _ _ _ _ hcn]
            rw [if_neg (fun hh => hne (prodFst hh)), if_neg (fun hh => hmn (prodSnd hh))]
            exact hc
          exact ih _ _ m c h hmr h3

/-- A destination entry, once present, stays present through the rest of the
sweep (its content may be overwritten by same-name moves). -/
theorem moveEntries_dst_some_mono (fail : String → String → Bool) (folder finalD q : String)
    (hne : folder ≠ finalD) :
    ∀ (names : List String) (fs fs' : FS),
      moveEntries fail folder finalD names fs = .ok fs' →
      (∃ c, fs.lookupFile finalD q = some c) →
      ∃ c, fs'.lookupFile finalD q = some c := by
  intro names
  induction names with
  | nil => intro fs fs' h hq; rw [moveEntries] at h; cases h; exact hq
  | cons n rest ih =>
    intro fs fs' h hq
    rw [moveEntries] at h
    by_cases hf : fail folder n = true
    · rw [if_pos hf] at h; cases h
    · rw [if_neg hf] at h
      refine ih _ _ h ?_
      cases hc : fs.lookupFile folder n with
      | none => rw [FS.rename_of_none _ _ _ _ _ hc]; exact hq
      | some c =>
        rw [FS.lookup_rename_of_some _ _ _ _ _ _ hc]
        by_cases hqn : q = n
        · rw [if_pos (by rw [hqn])]; exact ⟨c, rfl⟩
        · rw [if_neg (fun hh => hqn (prodSnd hh)), if_neg (fun hh => hne (prodFst hh).symm)]
          exact hq

-- ---------------------------------------------------------------------------
-- "No SUMMARY.txt anywhere" invariant (for the relocation-failure analysis)
-- ---------------------------------------------------------------------------

/-- No directory holds a file named SUMMARY.txt. -/
def noSummary (fs : FS) : Prop := ∀ d, fs.lookupFile d "SUMMARY.txt" = none

theorem rename_keeps_noSummary (fs : FS) (sd sn dd : String) (h : noSummary fs) :
    noSummary (fs.rename sd sn dd sn) := by
  intro d
  cases hc : fs.lookupFile sd sn with
  | none => rw [FS.rename_of_none _ _ _ _ _ hc]; exact h d
  | some c =>
    by_cases hsn : sn = "SUMMARY.txt"
    · rw [hsn] at hc; rw [h sd] at hc; cases hc
    · rw [FS.lookup_rename_of_some _ _ _ _ _ _ hc]
      rw [if_neg (fun hh => hsn (prodSnd hh).symm), if_neg (fun hh => hsn (prodSnd hh).symm)]
      exact h d

theorem moveEntries_keeps_noSummary (fail : String → String → Bool) (folder finalD : String) :
    ∀ (names : List String) (fs fs' : FS),
      moveEntries fail folder finalD names fs = .ok fs' → noSummary fs → noSummary fs' := by
  intro names
  induction names with
  | nil => intro fs fs' h hs; rw [moveEntries] at h; cases h; exact hs
  | cons n rest ih =>
    intro fs fs' h hs
    rw [moveEntries] at h
    by_cases hf : fail folder n = true
    · rw [if_pos hf] at h; cases h
    · rw [if_neg hf] at h
      exact ih _ _ h (rename_keeps_noSummary fs folder n finalD hs)

theorem moveEntries_keeps_noSummary_err (fail : String → String → Bool) (folder finalD : String) :
    ∀ (names : List String) (fs : FS) (a b : String) (fsE : FS),
      moveEntries fail folder finalD names fs = .error (a, b, fsE) → noSummary fs →
      noSummary fsE := by
  intro names
  induction names with
  | nil => intro fs a b fsE h hs; rw [moveEntries] at h; cases h
  | cons n rest ih =>
    intro fs a b fsE h hs
    rw [moveEntries] at h
    by_cases hf : fail folder n = true
    · rw [if_pos hf] at h; cases h; exact hs
    · rw [if_neg hf] at h
      exact ih _ _ _ _ h (rename_keeps_noSummary fs folder n finalD hs)

-- ---------------------------------------------------------------------------
-- Outer move-loop lemmas
-- ---------------------------------------------------------------------------

theorem moveAll_ok_of_noFail (fail : String → String → Bool) (finalD : String)
    (hnf : ∀ d n, fail d n = false) :
    ∀ (ds : List String) (fs : FS),
      ∃ fs', moveAll fail finalD ds fs = .ok fs' := by
  intro ds
  induction ds with
  | nil => intro fs; exact ⟨fs, rfl⟩
  | cons d rest ih =>
    intro fs
    rw [moveAll]
    by_cases hd : d ∈ fs.dirs
    · rw [if_pos hd]
      obtain ⟨fs1, h1⟩ := moveEntries_ok_of_noFail fail d finalD hnf (fs.listdir d) fs
      rw [h1]
      exact ih fs1
    · rw [if_neg hd]
      exact ih fs

theorem moveAll_dirs (fail : String → String → Bool) (finalD : String) :
    ∀ (ds : List String) (fs fs' : FS),
      moveAll fail finalD ds fs = .ok fs' → fs'.dirs = fs.dirs := by
  intro ds
  induction ds with
  | nil => intro fs fs' h; rw [moveAll] at h; cases h; rfl
  | cons d rest ih =>
    intro fs fs' h
    rw [moveAll] at h
    by_cases hd : d ∈ fs.dirs
    · rw [if_pos hd] at h
      cases hme : moveEntries fail d finalD (fs.listdir d) fs with
      | error e => rw [hme] at h; exact Except.noConfusion h
      | ok fs1 =>
        rw [hme] at h
        rw [ih fs1 fs' h, moveEntries_dirs fail d finalD _ _ _ hme]
    · rw [if_neg hd] at h
      exact ih _ _ h

theorem moveAll_dirs_err (fail : String → String → Bool) (finalD : String) :
    ∀ (ds : List String) (fs : FS) (a b : String) (fsE : FS),
      moveAll fail finalD ds fs = .error (a, b, fsE) → fsE.dirs = fs.dirs := by
  intro ds
  induction ds with
  | nil => intro fs a b fsE h; rw [moveAll] at h; cases h
  | cons d rest ih =>
    intro fs a b fsE h
    rw [moveAll] at h
    by_cases hd : d ∈ fs.dirs
    · rw [if_pos hd] at h
      cases hme : moveEntries fail d finalD (fs.listdir d) fs with
      | error e =>
        rw [hme] at h
        have he : e = (a, b, fsE) := by
          have : Except.error (ε := String × String × FS) (α := FS) e = .error (a, b, fsE) := h
          exact Except.error.inj this
        rw [he] at hme
        exact moveEntries_dirs_err fail d finalD _ _ _ _ _ hme
      | ok fs1 =>
        rw [hme] at h
        rw [ih fs1 a b fsE h, moveEntries_dirs fail d finalD _ _ _ hme]
    · rw [if_neg hd] at h
      exact ih _ _ _ _ h

theorem moveAll_keeps_noSummary (fail : String → String → Bool) (finalD : String) :
    ∀ (ds : List String) (fs fs' : FS),
      moveAll fail finalD ds fs = .ok fs' → noSummary fs → noSummary fs' := by
  intro ds
  induction ds with
  | nil => intro fs fs' h hs; rw [moveAll] at h; cases h; exact hs
  | cons d rest ih =>
    intro fs fs' h hs
    rw [moveAll] at h
    by_cases hd : d ∈ fs.dirs
    · rw [if_pos hd] at h
      cases hme : moveEntries fail d finalD (fs.listdir d) fs with
      | error e => rw [hme] at h; exact Except.noConfusion h
      | ok fs1 =>
        rw [hme] at h
        exact ih _ _ h (moveEntries_keeps_noSummary fail d finalD _ _ _ hme hs)
    · rw [if_neg hd] at h
      exact ih _ _ h hs

theorem moveAll_keeps_noSummary_err (fail : String → String → Bool) (finalD : String) :
    ∀ (ds : List String) (fs : FS) (a b : String) (fsE : FS),
      moveAll fail finalD ds fs = .error (a, b, fsE) → noSummary fs → noSummary fsE := by
  intro ds
  induction ds with
  | nil => intro fs a b fsE h hs; rw [moveAll] at h; cases h
  | cons d rest ih =>
    intro fs a b fsE h hs
    rw [moveAll] at h
    by_cases hd : d ∈ fs.dirs
    · rw [if_pos hd] at h
      cases hme : moveEntries fail d finalD (fs.listdir d) fs with
      | error e =>
        rw [hme] at h
        have he : e = (a, b, fsE) := by
          have : Except.error (ε := String × String × FS) (α := FS) e = .error (a, b, fsE) := h
          exact Except.error.inj this
        rw [he] at hme
        exact moveEntries_keeps_noSummary_err fail d finalD _ _ _ _ _ hme hs
      | ok fs1 =>
        rw [hme] at h
        exact ih _ _ _ _ h (moveEntries_keeps_noSummary fail d finalD _ _ _ hme hs)
    · rw [if_neg hd] at h
      exact ih _ _ _ _ h hs

/-- A name absent from directory `d` (d not the destination) stays absent
through the whole outer sweep. -/
theorem moveAll_none_mono (fail : String → String → Bool) (finalD d q : String)
    (hd : d ≠ finalD) :
    ∀ (ds : List String) (fs fs' : FS),
      moveAll fail finalD ds fs = .ok fs' →
      fs.lookupFile d q = none → fs'.lookupFile d q = none := by
  intro ds
  induction ds with
  | nil => intro fs fs' h hq; rw [moveAll] at h; cases h; exact hq
  | cons e rest ih =>
    intro fs fs' h hq
    rw [moveAll] at h
    by_cases he : e ∈ fs.dirs
    · rw [if_pos he] at h
      cases hme : moveEntries fail e finalD (fs.listdir e) fs with
      | error err => rw [hme] at h; exact Except.noConfusion h
      | ok fs1 =>
        rw [hme] at h
        refine ih _ _ h ?_
        by_cases hde : d = e
        · subst hde
          exact moveEntries_none_mono fail d finalD q hd _ _ _ hme hq
        · rw [moveEntries_lookup_other fail e finalD d q hde hd _ _ _ hme]
          exact hq
    · rw [if_neg he] at h
      exact ih _ _ h hq

/-- After a successful sweep of one folder's own listing, the folder is
completely empty. -/
theorem moveEntries_clears (fail : String → String → Bool) (folder finalD : String)
    (hne : folder ≠ finalD) (fs fs' : FS)
    (h : moveEntries fail folder finalD (fs.listdir folder) fs = .ok fs') :
    ∀ q, fs'.lookupFile folder q = none := by
  intro q
  cases hc : fs.lookupFile folder q with
  | none => exact moveEntries_none_mono fail folder finalD q hne _ _ _ h hc
  | some c =>
    have hq : q ∈ fs.listdir folder := (FS.mem_listdir_iff fs folder q).mpr ⟨c, hc⟩
    exact moveEntries_src_gone fail folder finalD hne _ _ _ h q hq

/-- Every existing source directory in the sweep list is empty afterwards. -/
theorem moveAll_src_gone (fail : String → String → Bool) (finalD : String) :
    ∀ (ds : List String) (fs fs' : FS),
      finalD ∉ ds → moveAll fail finalD ds fs = .ok fs' →
      ∀ d ∈ ds, d ∈ fs.dirs → ∀ q, fs'.lookupFile d q = none := by
  intro ds
  induction ds with
  | nil => intro fs fs' _ h d hd; cases hd
  | cons e rest ih =>
    intro fs fs' hnf h d hd hdirs q
    have hef : e ≠ finalD := fun hh => hnf (hh ▸ List.mem_cons_self e rest)
    rw [moveAll] at h
    rcases List.mem_cons.mp hd with hde | hdr
    · subst hde
      rw [if_pos hdirs] at h
      cases hme : moveEntries fail d finalD (fs.listdir d) fs with
      | error err => rw [hme] at h; exact Except.noConfusion h
      | ok fs1 =>
        rw [hme] at h
        have hdf : d ≠ finalD := hef
        exact moveAll_none_mono fail finalD d q hdf rest fs1 fs' h
          (moveEntries_clears fail d finalD hdf fs fs1 hme q)
    · have hdf : d ≠ finalD := fun hh => hnf (List.mem_cons.mpr (Or.inr (hh ▸ hdr)))
      by_cases he : e ∈ fs.dirs
      · rw [if_pos he] at h
        cases hme : moveEntries fail e finalD (fs.listdir e) fs with
        | error err => rw [hme] at h; exact Except.noConfusion h
        | ok fs1 =>
          rw [hme] at h
          have hd1 : d ∈ fs1.dirs := by
            rw [moveEntries_dirs fail e finalD _ _ _ hme]; exact hdirs
          exact ih fs1 fs' (fun hh => hnf (List.mem_cons.mpr (Or.inr hh))) h d hdr hd1 q
      · rw [if_neg he] at h
        exact ih fs fs' (fun hh => hnf (List.mem_cons.mpr (Or.inr hh))) h d hdr hdirs q

/-- A destination entry, once present, survives the rest of the outer sweep. -/
theorem moveAll_dst_some_mono (fail : String → String → Bool) (finalD q : String) :
    ∀ (ds : List String) (fs fs' : FS),
      finalD ∉ ds → moveAll fail finalD ds fs = .ok fs' →
      (∃ c, fs.lookupFile finalD q = some c) →
      ∃ c, fs'.lookupFile finalD q = some c := by
  intro ds
  induction ds with
  | nil => intro fs fs' _ h hq; rw [moveAll] at h; cases h; exact hq
  | cons e rest ih =>
    intro fs fs' hnf h hq
    have hef : e ≠ finalD := fun hh => hnf (hh ▸ List.mem_cons_self e rest)
    rw [moveAll] at h
    by_cases he : e ∈ fs.dirs
    · rw [if_pos he] at h
      cases hme : moveEntries fail e finalD (fs.listdir e) fs with
      | error err => rw [hme] at h; exact Except.noConfusion h
      | ok fs1 =>
        rw [hme] at h
        exact ih fs1 fs' (fun hh => hnf (List.mem_cons.mpr (Or.inr hh))) h
          (moveEntries_dst_some_mono fail e finalD q hef _ _ _ hme hq)
    · rw [if_neg he] at h
      exact ih fs fs' (fun hh => hnf (List.mem_cons.mpr (Or.inr hh))) h hq

/-- Union: every entry of an existing source directory ends up present in the
destination after the sweep. -/
theorem moveAll_union (fail : String → String → Bool) (finalD : String) :
    ∀ (ds : List String) (fs fs' : FS),
      finalD ∉ ds → moveAll fail finalD ds fs = .ok fs' →
      ∀ d ∈ ds, d ∈ fs.dirs → ∀ q c, fs.lookupFile d q = some c →
      ∃ c', fs'.lookupFile finalD q = some c' := by
  intro ds
  induction ds with
  | nil => intro fs fs' _ h d hd; cases hd
  | cons e rest ih =>
    intro fs fs' hnf h d hd hdirs q c hc
    have hef : e ≠ finalD := fun hh => hnf (hh ▸ List.mem_cons_self e rest)
    rw [moveAll] at h
    by_cases hde : d = e
    · subst hde
      rw [if_pos hdirs] at h
      cases hme : moveEntries fail d finalD (fs.listdir d) fs with
      | error err => rw [hme] at h; exact Except.noConfusion h
      | ok fs1 =>
        rw [hme] at h
        have hq : q ∈ fs.listdir d := (FS.mem_listdir_iff fs d q).mpr ⟨c, hc⟩
        have h1 : fs1.lookupFile finalD q = some c :=
          moveEntries_dst_move fail d finalD hef _ _ _ q c hme hq hc
        exact moveAll_dst_some_mono fail finalD q rest fs1 fs'
          (fun hh => hnf (List.mem_cons.mpr (Or.inr hh))) h ⟨c, h1⟩
    · have hdr : d ∈ rest := by
        rcases List.mem_cons.mp hd with hh | hh
        · exact absurd hh hde
        · exact hh
      have hdf : d ≠ finalD := fun hh => hnf (List.mem_cons.mpr (Or.inr (hh ▸ hdr)))
      by_cases he : e ∈ fs.dirs
      · rw [if_pos he] at h
        cases hme : moveEntries fail e finalD (fs.listdir e) fs with
        | error err => rw [hme] at h; exact Except.noConfusion h
        | ok fs1 =>
          rw [hme] at h
          have hd1 : d ∈ fs1.dirs := by
            rw [moveEntries_dirs fail e finalD _ _ _ hme]; exact hdirs
          have hc1 : fs1.lookupFile d q = some c := by
            rw [moveEntries_lookup_other fail e finalD d q hde hdf _ _ _ hme]
            exact hc
          exact ih fs1 fs' (fun hh => hnf (List.mem_cons.mpr (Or.inr hh))) h d hdr hd1 q c hc1
      · rw [if_neg he] at h
        exact ih fs fs' (fun hh => hnf (List.mem_cons.mpr (Or.inr hh))) h d hdr hdirs q c hc

/-- Names held by no swept source directory leave the destination entry of
that name untouched. -/
theorem moveAll_dst_old (fail : String → String → Bool) (finalD q : String) :
    ∀ (ds : List String) (fs fs' : FS),
      finalD ∉ ds → moveAll fail finalD ds fs = .ok fs' →
      (∀ d ∈ ds, fs.lookupFile d q = none) →
      fs'.lookupFile finalD q = fs.lookupFile finalD q := by
  intro ds
  induction ds with
  | nil => intro fs fs' _ h _; rw [moveAll] at h; cases h; rfl
  | cons e rest ih =>
    intro fs fs' hnf h habs
    have hef : e ≠ finalD := fun hh => hnf (hh ▸ List.mem_cons_self e rest)
    rw [moveAll] at h
    by_cases he : e ∈ fs.dirs
    · rw [if_pos he] at h
      cases hme : moveEntries fail e finalD (fs.listdir e) fs with
      | error err => rw [hme] at h; exact Except.noConfusion h
      | ok fs1 =>
        rw [hme] at h
        have habs1 : ∀ d ∈ rest, fs1.lookupFile d q = none := by
          intro d hd
          by_cases hde : d = e
          · subst hde
            exact moveEntries_none_mono fail d finalD q hef _ _ _ hme
              (habs d (List.mem_cons_self d rest))
          · have hdf : d ≠ finalD := fun hh => hnf (List.mem_cons.mpr (Or.inr (hh ▸ hd)))
            rw [moveEntries_lookup_other fail e finalD d q hde hdf _ _ _ hme]
            exact habs d (List.mem_cons.mpr (Or.inr hd))
        have h1 : fs1.lookupFile finalD q = fs.lookupFile finalD q :=
          moveEntries_dst_preserve fail e finalD q hef _ _ _ hme
            (habs e (List.mem_cons_self e rest))
        rw [ih fs1 fs' (fun hh => hnf (List.mem_cons.mpr (Or.inr hh))) h habs1, h1]
    · rw [if_neg he] at h
      exact ih fs fs' (fun hh => hnf (List.mem_cons.mpr (Or.inr hh))) h
        (fun d hd => habs d (List.mem_cons.mpr (Or.inr hd)))

/-- Two-directory last-wins: when both source directories hold an entry of
the same name, the destination ends up with the second directory's content. -/
theorem moveAll_last_wins (fail : String → String → Bool) (finalD a b q cb : String)
    (fs fs' : FS) (hab : b ≠ a) (hbf : b ≠ finalD)
    (ha : a ∈ fs.dirs) (hb : b ∈ fs.dirs)
    (hcb : fs.lookupFile b q = some cb)
    (h : moveAll fail finalD [a, b] fs = .ok fs') :
    fs'.lookupFile finalD q = some cb := by
  rw [moveAll, if_pos ha] at h
  cases hme : moveEntries fail a finalD (fs.listdir a) fs with
  | error err => rw [hme] at h; exact Except.noConfusion h
  | ok fs1 =>
    rw [hme] at h
    have h1 : moveAll fail finalD [b] fs1 = .ok fs' := h
    have hb1 : b ∈ fs1.dirs := by
      rw [moveEntries_dirs fail a finalD _ _ _ hme]
      exact hb
    have hcb1 : fs1.lookupFile b q = some cb := by
      rw [moveEntries_lookup_other fail a finalD b q hab hbf _ _ _ hme]
      exact hcb
    rw [moveAll, if_pos hb1] at h1
    cases hme2 : moveEntries fail b finalD (fs1.listdir b) fs1 with
    | error err => rw [hme2] at h1; exact Except.noConfusion h1
    | ok fs2 =>
      rw [hme2] at h1
      have h2 : moveAll fail finalD [] fs2 = .ok fs' := h1
      rw [moveAll] at h2
      cases h2
      have hqmem : q ∈ fs1.listdir b := (FS.mem_listdir_iff fs1 b q).mpr ⟨cb, hcb1⟩
      exact moveEntries_dst_move fail b finalD hbf _ _ _ q cb hme2 hqmem hcb1

-- ---------------------------------------------------------------------------
-- makedirs and hasFile lemmas
-- ---------------------------------------------------------------------------

theorem FS.makedirs_of_mem (fs : FS) (d : String) (h : d ∈ fs.dirs) :
    fs.makedirs d = fs := by
  unfold FS.makedirs
  rw [if_pos h]

theorem FS.mem_dirs_makedirs (fs : FS) (d : String) : d ∈ (fs.makedirs d).dirs := by
  unfold FS.makedirs
  by_cases h : d ∈ fs.dirs
  · rw [if_pos h]; exact h
  · rw [if_neg h]; exact List.mem_cons_self d fs.dirs

theorem FS.files_makedirs (fs : FS) (d : String) : (fs.makedirs d).files = fs.files := by
  unfold FS.makedirs
  by_cases h : d ∈ fs.dirs
  · rw [if_pos h]
  · rw [if_neg h]

theorem FS.lookup_makedirs (fs : FS) (d d' n' : String) :
    (fs.makedirs d).lookupFile d' n' = fs.lookupFile d' n' := by
  unfold FS.lookupFile
  rw [FS.files_makedirs]

theorem FS.hasFile_iff (fs : FS) (d n : String) :
    fs.hasFile d n = true ↔ ∃ c, fs.lookupFile d n = some c := by
  unfold FS.hasFile FS.lookupFile
  constructor
  · intro h
    obtain ⟨p, hp, hkey⟩ := List.any_eq_true.mp h
    have hsome : (fs.files.find? (fun q => decide (q.1 = (d, n)))).isSome = true := by
      rw [List.find?_isSome]
      exact ⟨p, hp, hkey⟩
    obtain ⟨q, hq⟩ := Option.isSome_iff_exists.mp hsome
    exact ⟨q.2, by rw [hq]; rfl⟩
  · intro ⟨c, hc⟩
    cases hq : fs.files.find? (fun p => decide (p.1 = (d, n))) with
    | none => rw [hq] at hc; simp at hc
    | some r =>
      refine List.any_eq_true.mpr ⟨r, List.mem_of_find?_eq_some hq, ?_⟩
      simpa using List.find?_some hq

theorem FS.hasFile_false_iff (fs : FS) (d n : String) :
    fs.hasFile d n = false ↔ fs.lookupFile d n = none := by
  constructor
  · intro h
    cases hc : fs.lookupFile d n with
    | none => rfl
    | some c =>
      have := (FS.hasFile_iff fs d n).mpr ⟨c, hc⟩
      rw [h] at this
      cases this
  · intro h
    cases hb : fs.hasFile d n with
    | false => rfl
    | true =>
      obtain ⟨c, hc⟩ := (FS.hasFile_iff fs d n).mp hb
      rw [h] at hc
      cases hc

theorem FS.hasFile_makedirs (fs : FS) (d d' n' : String) :
    (fs.makedirs d).hasFile d' n' = fs.hasFile d' n' := by
  unfold FS.hasFile
  rw [FS.files_makedirs]

-- ---------------------------------------------------------------------------
-- Download-loop lemmas
-- ---------------------------------------------------------------------------

theorem fetchLoop_dirs (localDir : String) :
    ∀ (entries : List DriveFile) (fs : FS),
      (fetchLoop localDir entries fs).1.dirs = fs.dirs := by
  intro entries
  induction entries with
  | nil => intro fs; rfl
  | cons e rest ih =>
    intro fs
    rw [fetchLoop]
    by_cases hc : fs.hasFile localDir e.title = true
    · rw [if_pos hc]
      exact ih fs
    · rw [if_neg hc]
      simp only
      rw [ih _, FS.dirs_writeFile]

/-- The download loop never removes a file: a present entry stays present
(with the same content, since the loop writes only names absent so far). -/
theorem fetchLoop_some_mono (localDir d q : String) :
    ∀ (entries : List DriveFile) (fs : FS) (c : String),
      fs.lookupFile d q = some c →
      ∃ c', (fetchLoop localDir entries fs).1.lookupFile d q = some c' := by
  intro entries
  induction entries with
  | nil => intro fs c hc; exact ⟨c, hc⟩
  | cons e rest ih =>
    intro fs c hc
    rw [fetchLoop]
    by_cases hf : fs.hasFile localDir e.title = true
    · rw [if_pos hf]
      exact ih fs c hc
    · rw [if_neg hf]
      simp only
      by_cases hk : (d, q) = (localDir, e.title)
      · refine ih _ e.content ?_
        rw [FS.lookup_writeFile, if_pos hk]
      · refine ih _ c ?_
        rw [FS.lookup_writeFile, if_neg hk]
        exact hc

/-- After the download loop, every entry of the input listing has a local
file under its title. -/
theorem fetchLoop_covers (localDir : String) :
    ∀ (entries : List DriveFile) (fs : FS),
      ∀ e ∈ entries, ∃ c, (fetchLoop localDir entries fs).1.lookupFile localDir e.title = some c := by
  intro entries
  induction entries with
  | nil => intro fs e he; cases he
  | cons e0 rest ih =>
    intro fs e he
    rw [fetchLoop]
    by_cases hf : fs.hasFile localDir e0.title = true
    · rw [if_pos hf]
      rcases List.mem_cons.mp he with hee | her
      · subst hee
        obtain ⟨c, hc⟩ := (FS.hasFile_iff fs localDir e.title).mp hf
        obtain ⟨c', hc'⟩ := fetchLoop_some_mono localDir localDir e.title rest fs c hc
        exact ⟨c', hc'⟩
      · exact ih fs e her
    · rw [if_neg hf]
      simp only
      rcases List.mem_cons.mp he with hee | her
      · subst hee
        refine fetchLoop_some_mono localDir localDir e.title rest _ e.content ?_
        rw [FS.lookup_writeFile, if_pos rfl]
      · exact ih _ e her

/-- If every entry already has a local file, the download loop is a no-op
and downloads nothing. -/
theorem fetchLoop_all_present (localDir : String) :
    ∀ (entries : List DriveFile) (fs : FS),
      (∀ e ∈ entries, fs.hasFile localDir e.title = true) →
      fetchLoop localDir entries fs = (fs, []) := by
  intro entries
  induction entries with
  | nil => intro fs _; rfl
  | cons e rest ih =>
    intro fs hall
    rw [fetchLoop, if_pos (hall e (List.mem_cons_self e rest))]
    exact ih fs (fun e' he' => hall e' (List.mem_cons.mpr (Or.inr he')))

/-- On a filesystem holding none of the entry titles, with pairwise distinct
titles, the download loop downloads every entry exactly once, in order. -/
theorem fetchLoop_fresh_downloads_all (localDir : String) :
    ∀ (entries : List DriveFile) (fs : FS),
      (entries.map DriveFile.title).Nodup →
      (∀ e ∈ entries, fs.hasFile localDir e.title = false) →
      (fetchLoop localDir entries fs).2 = entries.map DriveFile.title := by
  intro entries
  induction entries with
  | nil => intro fs _ _; rfl
  | cons e rest ih =>
    intro fs hnd habs
    rw [fetchLoop]
    rw [if_neg (by rw [habs e (List.mem_cons_self e rest)]; exact fun hh => Bool.noConfusion hh)]
    simp only [List.map_cons]
    have hnd' : (rest.map DriveFile.title).Nodup := (List.nodup_cons.mp (by simpa using hnd)).2
    have hnotin : e.title ∉ rest.map DriveFile.title :=
      (List.nodup_cons.mp (by simpa using hnd)).1
    have habs' : ∀ e' ∈ rest, (fs.writeFile localDir e.title e.content).hasFile localDir e'.title = false := by
      intro e' he'
      rw [FS.hasFile_false_iff, FS.lookup_writeFile]
      rw [if_neg]
      · rw [← FS.hasFile_false_iff]
        exact habs e' (List.mem_cons.mpr (Or.inr he'))
      · intro hh
        exact hnotin (by rw [← prodSnd hh]; exact List.mem_map.mpr ⟨e', he', rfl⟩)
    rw [ih _ hnd' habs']

-- ---------------------------------------------------------------------------
-- Claim theorems: polling (C1, C4, C7, C8, C9)
-- ---------------------------------------------------------------------------

/-- C1: if every listing of the container returned by the Remote Listing
Client is empty throughout the maxWait window, the run fails with the
export-timeout error and the local filesystem is returned exactly as it was:
the Fetcher is never invoked and no local directory is created (no download
and no makedirs happens after the failure). -/
theorem C1_timeout_leaves_fs_untouched (driveAt : Nat → List DriveFile) (W MW : Nat)
    (proc : FS → Except Unit FS) (fail : String → String → Bool)
    (ts : String) (fs0 : FS) (hW : 0 < W)
    (hemp : ∀ k, list_drive_files (driveAt k) EXPORT_FOLDER = .ok []) :
    runPipeline driveAt W MW proc fail ts true fs0 = .err .exportTimeout fs0 := by
  obtain ⟨n, hn, _, _⟩ :=
    waitForExports_empty (fun k => list_drive_files (driveAt k) EXPORT_FOLDER) W MW hW hemp
  unfold runPipeline
  rw [if_neg (by simp), hn]

theorem C1_timeout_leaves_fs_untouched_witness :
    runPipeline (fun _ => [⟨"fid", EXPORT_FOLDER, folderMime, false, [], ""⟩]) 1 2
      (fun fs => .ok fs) (fun _ _ => false) "20251012_0000" true ⟨[], []⟩ =
      .err .exportTimeout ⟨[], []⟩ :=
  C1_timeout_leaves_fs_untouched _ 1 2 _ _ _ _ (by decide) (fun _ => rfl)

/-- C4: if some poll attempt within the maxWait window returns a non-empty
listing (all earlier attempts being empty), the poller returns exactly that
listing, after exactly n+1 listing calls; and the result is a snapshot: it
is the same for any drive behaviour that agrees up to that attempt, so later
additions to the container are never observed in the same call. -/
theorem C4_first_nonempty_snapshot (drv : Nat → Except String (List DriveFile))
    (W MW n : Nat) (files : List DriveFile) (hW : 0 < W) (hne : files ≠ [])
    (hpre : ∀ k, k < n → drv k = .ok []) (hn : drv n = .ok files) (hwin : n * W < MW) :
    waitForExports drv W MW = some (.found files (n + 1) (n * W)) ∧
    ∀ drv' : Nat → Except String (List DriveFile),
      (∀ k, k ≤ n → drv' k = drv k) →
      waitForExports drv' W MW = some (.found files (n + 1) (n * W)) := by
  refine ⟨waitForExports_found drv W MW n files hne hW hpre hn hwin, ?_⟩
  intro drv' hagree
  refine waitForExports_found drv' W MW n files hne hW ?_ ?_ hwin
  · intro k hk
    rw [hagree k (Nat.le_of_lt hk)]
    exact hpre k hk
  · rw [hagree n (Nat.le_refl n)]
    exact hn

theorem C4_first_nonempty_snapshot_witness :
    waitForExports
      (fun k => if k = 0 then .ok [] else .ok [⟨"a", "a.tif", "image/tiff", false, ["fid"], "DATA"⟩])
      1 3 = some (.found [⟨"a", "a.tif", "image/tiff", false, ["fid"], "DATA"⟩] 2 1) :=
  (C4_first_nonempty_snapshot
    (fun k => if k = 0 then .ok [] else .ok [⟨"a", "a.tif", "image/tiff", false, ["fid"], "DATA"⟩])
    1 3 1 _ (by decide) (by decide)
    (fun k hk => by
      have h0 : k = 0 := Nat.lt_one_iff.mp hk
      rw [h0]
      rfl)
    rfl (by decide)).1

/-- C7: if at the first attempt zero Drive entries match the folder query
(trashed folders excluded exactly like absent ones), list_drive_files raises
at attempt 0, so the run fails with the container-not-found error before any
polling sleep and before any download: zero sleeps have elapsed and the
local filesystem is returned untouched. -/
theorem C7_no_container_fails_immediately (driveAt : Nat → List DriveFile) (W MW : Nat)
    (proc : FS → Except Unit FS) (fail : String → String → Bool)
    (ts : String) (fs0 : FS) (hMW : 0 < MW)
    (hnomatch : ∀ f ∈ driveAt 0, isFolderMatch EXPORT_FOLDER f = false) :
    waitForExports (fun k => list_drive_files (driveAt k) EXPORT_FOLDER) W MW =
      some (.notFound ("Drive folder " ++ EXPORT_FOLDER ++ " not found") 0) ∧
    runPipeline driveAt W MW proc fail ts true fs0 =
      .err (.containerNotFound ("Drive folder " ++ EXPORT_FOLDER ++ " not found")) fs0 := by
  have hfil : (driveAt 0).filter (isFolderMatch EXPORT_FOLDER) = [] := by
    rw [List.filter_eq_nil_iff]
    intro f hf
    rw [hnomatch f hf]
    exact fun hh => Bool.noConfusion hh
  have herr : list_drive_files (driveAt 0) EXPORT_FOLDER =
      .error ("Drive folder " ++ EXPORT_FOLDER ++ " not found") := by
    unfold list_drive_files
    rw [hfil]
  have hwait : waitForExports (fun k => list_drive_files (driveAt k) EXPORT_FOLDER) W MW =
      some (.notFound ("Drive folder " ++ EXPORT_FOLDER ++ " not found") 0) := by
    rw [waitForExports, pollAux, if_pos hMW, herr]
  refine ⟨hwait, ?_⟩
  unfold runPipeline
  rw [if_neg (by simp), hwait]

theorem C7_no_container_fails_immediately_witness :
    runPipeline (fun _ => [⟨"fid", EXPORT_FOLDER, folderMime, true, [], ""⟩]) 300 7200
      (fun fs => .ok fs) (fun _ _ => false) "20251012_0000" true ⟨[], []⟩ =
      .err (.containerNotFound ("Drive folder " ++ EXPORT_FOLDER ++ " not found")) ⟨[], []⟩ :=
  (C7_no_container_fails_immediately _ 300 7200 _ _ _ _ (by decide)
    (by
      intro f hf
      have hfe : f = ⟨"fid", EXPORT_FOLDER, folderMime, true, [], ""⟩ := by
        simpa using hf
      rw [hfe]
      rfl)).2

/-- C8: with maxWait equal to twice the poll interval and an always-empty
container, exactly 2 poll attempts occur (with a full sleep after each),
then the run fails with the export-timeout error, leaving the local
filesystem untouched.  The attempt count is forced by the clock check at the
top of the loop. -/
theorem C8_two_polls_then_timeout (driveAt : Nat → List DriveFile) (W : Nat)
    (proc : FS → Except Unit FS) (fail : String → String → Bool)
    (ts : String) (fs0 : FS) (hW : 0 < W)
    (hemp : ∀ k, list_drive_files (driveAt k) EXPORT_FOLDER = .ok []) :
    waitForExports (fun k => list_drive_files (driveAt k) EXPORT_FOLDER) W (2 * W) =
      some (.timeout 2 (2 * W)) ∧
    runPipeline driveAt W (2 * W) proc fail ts true fs0 = .err .exportTimeout fs0 := by
  obtain ⟨n, hn, hle, hlt⟩ :=
    waitForExports_empty (fun k => list_drive_files (driveAt k) EXPORT_FOLDER) W (2 * W) hW hemp
  have hn2 : n = 2 := by
    rcases n with _ | _ | m
    · rw [Nat.zero_mul] at hle; omega
    · rw [Nat.one_mul] at hle; omega
    · rcases m with _ | m'
      · rfl
      · have := hlt 2 (by omega)
        omega
  subst hn2
  refine ⟨hn, ?_⟩
  unfold runPipeline
  rw [if_neg (by simp), hn]

theorem C8_two_polls_then_timeout_witness :
    waitForExports
      (fun k => list_drive_files ((fun _ => [⟨"fid", EXPORT_FOLDER, folderMime, false, [], ""⟩] : Nat → List DriveFile) k) EXPORT_FOLDER)
      5 (2 * 5) = some (.timeout 2 (2 * 5)) :=
  (C8_two_polls_then_timeout (fun _ => [⟨"fid", EXPORT_FOLDER, folderMime, false, [], ""⟩]) 5
    (fun fs => .ok fs) (fun _ _ => false) "20251012_0000" ⟨[], []⟩ (by decide)
    (fun _ => rfl)).1

/-- C9: with an always-empty container the poller checks the clock only at
the top of the loop and sleeps a full interval after every empty listing,
including the last: the timeout carries elapsed time exactly n * W for its n
attempts (a full sleep after each), at least one attempt was made, the
elapsed time at failure is at least maxWait, and the previous check was
still inside the window (so the error fires right after the final sleep,
never mid-sleep and never before a first attempt). -/
theorem C9_timeout_after_full_final_sleep (drv : Nat → Except String (List DriveFile))
    (W MW : Nat) (hW : 0 < W) (hMW : 0 < MW) (hemp : ∀ k, drv k = .ok []) :
    ∃ n, waitForExports drv W MW = some (.timeout n (n * W)) ∧
      MW ≤ n * W ∧ 1 ≤ n ∧ (n - 1) * W < MW := by
  obtain ⟨n, hn, hle, hlt⟩ := waitForExports_empty drv W MW hW hemp
  have hn1 : 1 ≤ n := by
    by_contra hcon
    have hn0 : n = 0 := by omega
    rw [hn0, Nat.zero_mul] at hle
    omega
  exact ⟨n, hn, hle, hn1, hlt (n - 1) (by omega)⟩

theorem C9_timeout_after_full_final_sleep_witness :
    ∃ n, waitForExports (fun _ => .ok []) 2 3 = some (.timeout n (n * 2)) ∧
      3 ≤ n * 2 ∧ 1 ≤ n ∧ (n - 1) * 2 < 3 :=
  C9_timeout_after_full_final_sleep (fun _ => .ok []) 2 3 (by decide) (by decide) (fun _ => rfl)

-- ---------------------------------------------------------------------------
-- Claim theorems: the Fetcher (C2)
-- ---------------------------------------------------------------------------

/-- C2 as frozen is false on the code: with one listed entry whose file is
already present locally, the two invocations together perform zero download
attempts, not exactly one per entry (the pre-existing file is skipped by
both runs and never overwritten). -/
theorem C2_counterexample :
    (fetchAll [⟨"a", "a.tif", "image/tiff", false, ["fid"], "DATA"⟩] LOCAL_EXPORTS
        ⟨[LOCAL_EXPORTS], [((LOCAL_EXPORTS, "a.tif"), "OLD")]⟩).2 = [] ∧
    (fetchAll [⟨"a", "a.tif", "image/tiff", false, ["fid"], "DATA"⟩] LOCAL_EXPORTS
        (fetchAll [⟨"a", "a.tif", "image/tiff", false, ["fid"], "DATA"⟩] LOCAL_EXPORTS
          ⟨[LOCAL_EXPORTS], [((LOCAL_EXPORTS, "a.tif"), "OLD")]⟩).1).2 = [] ∧
    (fetchAll [⟨"a", "a.tif", "image/tiff", false, ["fid"], "DATA"⟩] LOCAL_EXPORTS
        ⟨[LOCAL_EXPORTS], [((LOCAL_EXPORTS, "a.tif"), "OLD")]⟩).1.lookupFile
      LOCAL_EXPORTS "a.tif" = some "OLD" :=
  ⟨rfl, rfl, rfl⟩

/-- C2 amended: the Fetcher is idempotent — a second invocation with the
same entries and directory finds every local file present, performs zero
downloads and leaves the filesystem exactly unchanged; and when the entry
names are pairwise distinct and none of their files exists beforehand, the
first invocation performs exactly one download attempt per entry, in listing
order. -/
theorem C2_fetcher_idempotent (entries : List DriveFile) (localDir : String) (fs : FS) :
    fetchAll entries localDir (fetchAll entries localDir fs).1 =
      ((fetchAll entries localDir fs).1, []) ∧
    ((entries.map DriveFile.title).Nodup →
      (∀ e ∈ entries, fs.hasFile localDir e.title = false) →
      (fetchAll entries localDir fs).2 = entries.map DriveFile.title) := by
  constructor
  · have hmem : localDir ∈ (fetchAll entries localDir fs).1.dirs := by
      unfold fetchAll
      rw [fetchLoop_dirs]
      exact FS.mem_dirs_makedirs fs localDir
    have hmk : (fetchAll entries localDir fs).1.makedirs localDir =
        (fetchAll entries localDir fs).1 :=
      FS.makedirs_of_mem _ _ hmem
    have hall : ∀ e ∈ entries,
        (fetchAll entries localDir fs).1.hasFile localDir e.title = true := by
      intro e he
      rw [FS.hasFile_iff]
      exact fetchLoop_covers localDir entries (fs.makedirs localDir) e he
    show fetchLoop localDir entries ((fetchAll entries localDir fs).1.makedirs localDir) = _
    rw [hmk]
    exact fetchLoop_all_present localDir entries _ hall
  · intro hnd habs
    show (fetchLoop localDir entries (fs.makedirs localDir)).2 = _
    refine fetchLoop_fresh_downloads_all localDir entries _ hnd ?_
    intro e he
    rw [FS.hasFile_makedirs]
    exact habs e he

theorem C2_fetcher_idempotent_witness :
    fetchAll [⟨"a", "a.tif", "image/tiff", false, ["fid"], "DATA"⟩] LOCAL_EXPORTS
        (fetchAll [⟨"a", "a.tif", "image/tiff", false, ["fid"], "DATA"⟩] LOCAL_EXPORTS ⟨[], []⟩).1 =
      ((fetchAll [⟨"a", "a.tif", "image/tiff", false, ["fid"], "DATA"⟩] LOCAL_EXPORTS ⟨[], []⟩).1, []) ∧
    (fetchAll [⟨"a", "a.tif", "image/tiff", false, ["fid"], "DATA"⟩] LOCAL_EXPORTS ⟨[], []⟩).2 =
      ["a.tif"] :=
  ⟨(C2_fetcher_idempotent [⟨"a", "a.tif", "image/tiff", false, ["fid"], "DATA"⟩] LOCAL_EXPORTS ⟨[], []⟩).1,
   (C2_fetcher_idempotent [⟨"a", "a.tif", "image/tiff", false, ["fid"], "DATA"⟩] LOCAL_EXPORTS ⟨[], []⟩).2
     (by decide) (by decide)⟩

-- ---------------------------------------------------------------------------
-- Claim theorems: the Archiver (C5, C10)
-- ---------------------------------------------------------------------------

/-- The run directory is never one of the two swept source directories, for
any timestamp (its path has a strictly longer fixed prefix). -/
theorem finalDirOf_not_source (ts : String) : finalDirOf ts ∉ sourceFolders := by
  intro h
  have h22 : (LOCAL_PROCESSED ++ "run_").length = 22 := rfl
  rcases List.mem_cons.mp h with h1 | h2
  · have hlen := congrArg String.length h1
    rw [finalDirOf, String.length_append, h22] at hlen
    have h12 : LOCAL_EXPORTS.length = 12 := rfl
    rw [h12] at hlen
    omega
  · have hb : finalDirOf ts = PLOTS_DIR := by simpa [sourceFolders] using h2
    have hlen := congrArg String.length hb
    rw [finalDirOf, String.length_append, h22] at hlen
    have h14 : PLOTS_DIR.length = 14 := rfl
    rw [h14] at hlen
    omega

/-- C5: archival is a strict relocation.  With all moves succeeding and the
destination not among the source directories: the sweep completes, every
entry of every existing source directory is afterwards present in the
destination and gone from its source, the directory set itself is unchanged
(sources emptied, not removed), and on a same-name collision between the two
swept directories the last-processed one wins (the destination holds its
content). -/
theorem C5_archive_strict_relocation (fail : String → String → Bool) (ds : List String)
    (finalD : String) (fs : FS)
    (hnf : ∀ d n, fail d n = false) (hfd : finalD ∉ ds) :
    ∃ fs', moveAll fail finalD ds fs = .ok fs' ∧
      (∀ d ∈ ds, d ∈ fs.dirs → ∀ q c, fs.lookupFile d q = some c →
        (∃ c', fs'.lookupFile finalD q = some c') ∧ fs'.lookupFile d q = none) ∧
      fs'.dirs = fs.dirs ∧
      (∀ a b, ds = [a, b] → b ≠ a → a ∈ fs.dirs → b ∈ fs.dirs →
        ∀ q cb, fs.lookupFile b q = some cb → fs'.lookupFile finalD q = some cb) := by
  obtain ⟨fs', hok⟩ := moveAll_ok_of_noFail fail finalD hnf ds fs
  refine ⟨fs', hok, ?_, moveAll_dirs fail finalD ds fs fs' hok, ?_⟩
  · intro d hd hdirs q c hc
    exact ⟨moveAll_union fail finalD ds fs fs' hfd hok d hd hdirs q c hc,
      moveAll_src_gone fail finalD ds fs fs' hfd hok d hd hdirs q⟩
  · intro a b hds hba ha hb q cb hcb
    subst hds
    have hbf : b ≠ finalD := by
      intro hh
      exact hfd (by rw [← hh]; exact List.mem_cons.mpr (Or.inr (List.mem_cons_self b [])))
    exact moveAll_last_wins fail finalD a b q cb fs fs' hba hbf ha hb hcb hok

theorem C5_archive_strict_relocation_witness :
    ∃ fs', moveAll (fun _ _ => false) (finalDirOf "20251012_0000") sourceFolders
        ⟨[LOCAL_EXPORTS, PLOTS_DIR], [((LOCAL_EXPORTS, "f.tif"), "FROMGEE"), ((PLOTS_DIR, "f.tif"), "FROMPLOTS")]⟩ = .ok fs' ∧
      (∀ d ∈ sourceFolders,
        d ∈ (⟨[LOCAL_EXPORTS, PLOTS_DIR], [((LOCAL_EXPORTS, "f.tif"), "FROMGEE"), ((PLOTS_DIR, "f.tif"), "FROMPLOTS")]⟩ : FS).dirs →
        ∀ q c, (⟨[LOCAL_EXPORTS, PLOTS_DIR], [((LOCAL_EXPORTS, "f.tif"), "FROMGEE"), ((PLOTS_DIR, "f.tif"), "FROMPLOTS")]⟩ : FS).lookupFile d q = some c →
        (∃ c', fs'.lookupFile (finalDirOf "20251012_0000") q = some c') ∧ fs'.lookupFile d q = none) ∧
      fs'.dirs = (⟨[LOCAL_EXPORTS, PLOTS_DIR], [((LOCAL_EXPORTS, "f.tif"), "FROMGEE"), ((PLOTS_DIR, "f.tif"), "FROMPLOTS")]⟩ : FS).dirs ∧
      (∀ a b, sourceFolders = [a, b] → b ≠ a →
        a ∈ (⟨[LOCAL_EXPORTS, PLOTS_DIR], [((LOCAL_EXPORTS, "f.tif"), "FROMGEE"), ((PLOTS_DIR, "f.tif"), "FROMPLOTS")]⟩ : FS).dirs →
        b ∈ (⟨[LOCAL_EXPORTS, PLOTS_DIR], [((LOCAL_EXPORTS, "f.tif"), "FROMGEE"), ((PLOTS_DIR, "f.tif"), "FROMPLOTS")]⟩ : FS).dirs →
        ∀ q cb, (⟨[LOCAL_EXPORTS, PLOTS_DIR], [((LOCAL_EXPORTS, "f.tif"), "FROMGEE"), ((PLOTS_DIR, "f.tif"), "FROMPLOTS")]⟩ : FS).lookupFile b q = some cb →
        fs'.lookupFile (finalDirOf "20251012_0000") q = some cb) :=
  C5_archive_strict_relocation (fun _ _ => false) sourceFolders (finalDirOf "20251012_0000")
    ⟨[LOCAL_EXPORTS, PLOTS_DIR], [((LOCAL_EXPORTS, "f.tif"), "FROMGEE"), ((PLOTS_DIR, "f.tif"), "FROMPLOTS")]⟩
    (fun _ _ => rfl) (finalDirOf_not_source "20251012_0000")

/-- In a two-directory sweep, an entry present in the first directory and
absent from the second lands in the destination with the first directory's
content. -/
theorem moveAll_two_first_only (fail : String → String → Bool) (finalD a b q c : String)
    (fs fs' : FS) (hba : b ≠ a) (haf : a ≠ finalD) (hbf : b ≠ finalD)
    (ha : a ∈ fs.dirs)
    (hca : fs.lookupFile a q = some c) (hcb : fs.lookupFile b q = none)
    (h : moveAll fail finalD [a, b] fs = .ok fs') :
    fs'.lookupFile finalD q = some c := by
  rw [moveAll, if_pos ha] at h
  cases hme : moveEntries fail a finalD (fs.listdir a) fs with
  | error err => rw [hme] at h; exact Except.noConfusion h
  | ok fs1 =>
    rw [hme] at h
    have h1 : moveAll fail finalD [b] fs1 = .ok fs' := h
    have hqmem : q ∈ fs.listdir a := (FS.mem_listdir_iff fs a q).mpr ⟨c, hca⟩
    have hdst : fs1.lookupFile finalD q = some c :=
      moveEntries_dst_move fail a finalD haf _ _ _ q c hme hqmem hca
    have hb1 : fs1.lookupFile b q = none := by
      rw [moveEntries_lookup_other fail a finalD b q hba hbf _ _ _ hme]
      exact hcb
    by_cases hbd : b ∈ fs1.dirs
    · rw [moveAll, if_pos hbd] at h1
      cases hme2 : moveEntries fail b finalD (fs1.listdir b) fs1 with
      | error err => rw [hme2] at h1; exact Except.noConfusion h1
      | ok fs2 =>
        rw [hme2] at h1
        have h2 : moveAll fail finalD [] fs2 = .ok fs' := h1
        rw [moveAll] at h2
        cases h2
        rw [moveEntries_dst_preserve fail b finalD q hbf _ _ _ hme2 hb1]
        exact hdst
    · rw [moveAll, if_neg hbd] at h1
      have h2 : moveAll fail finalD [] fs1 = .ok fs' := h1
      rw [moveAll] at h2
      cases h2
      exact hdst

/-- C10: when the per-run output directory already exists (two runs in the
same minute), directory creation does not fail: the archival step succeeds,
the directory set is unchanged (the existing run directory is silently
reused, nothing new created), the sweep merges into it overwriting a
same-name file with the source content, and run-directory entries whose
names occur in no source directory are preserved. -/
theorem C10_existing_run_dir_reused (ts m c : String) (fs : FS)
    (hLP : LOCAL_PROCESSED ∈ fs.dirs) (hfd : finalDirOf ts ∈ fs.dirs)
    (hge : LOCAL_EXPORTS ∈ fs.dirs)
    (hm : fs.lookupFile LOCAL_EXPORTS m = some c)
    (hmp : fs.lookupFile PLOTS_DIR m = none) :
    ∃ fs', archiveStep (fun _ _ => false) ts fs = .ok (fs', finalDirOf ts) ∧
      fs'.dirs = fs.dirs ∧
      fs'.lookupFile (finalDirOf ts) m = some c ∧
      (∀ q, fs.lookupFile LOCAL_EXPORTS q = none → fs.lookupFile PLOTS_DIR q = none →
        fs'.lookupFile (finalDirOf ts) q = fs.lookupFile (finalDirOf ts) q) := by
  have hnotsrc := finalDirOf_not_source ts
  have hfse : (fs.makedirs LOCAL_PROCESSED).makedirs (finalDirOf ts) = fs := by
    rw [FS.makedirs_of_mem fs LOCAL_PROCESSED hLP, FS.makedirs_of_mem fs (finalDirOf ts) hfd]
  obtain ⟨fs', hok⟩ := moveAll_ok_of_noFail (fun _ _ => false) (finalDirOf ts)
    (fun _ _ => rfl) sourceFolders fs
  have hgef : LOCAL_EXPORTS ≠ finalDirOf ts := by
    intro hh
    exact hnotsrc (by rw [← hh]; exact List.mem_cons_self _ _)
  have hpf : PLOTS_DIR ≠ finalDirOf ts := by
    intro hh
    exact hnotsrc (by rw [← hh]; exact List.mem_cons.mpr (Or.inr (List.mem_cons_self _ _)))
  have hpg : PLOTS_DIR ≠ LOCAL_EXPORTS := by
    intro hh
    exact absurd (congrArg String.length hh) (by decide)
  refine ⟨fs', ?_, moveAll_dirs _ _ _ _ _ hok, ?_, ?_⟩
  · unfold archiveStep
    rw [hfse]
    rw [show moveAll (fun _ _ => false) (finalDirOf ts) sourceFolders fs = .ok fs' from hok]
  · exact moveAll_two_first_only (fun _ _ => false) (finalDirOf ts) LOCAL_EXPORTS PLOTS_DIR
      m c fs fs' hpg hgef hpf hge hm hmp hok
  · intro q hq1 hq2
    refine moveAll_dst_old (fun _ _ => false) (finalDirOf ts) q sourceFolders fs fs' hnotsrc hok ?_
    intro d hd
    rcases List.mem_cons.mp hd with h1 | h2
    · rw [h1]; exact hq1
    · rw [show d = PLOTS_DIR by simpa [sourceFolders] using h2]; exact hq2

theorem C10_existing_run_dir_reused_witness :
    ∃ fs', archiveStep (fun _ _ => false) "20251012_0000"
        ⟨[LOCAL_PROCESSED, finalDirOf "20251012_0000", LOCAL_EXPORTS],
         [((LOCAL_EXPORTS, "a.tif"), "NEW"), ((finalDirOf "20251012_0000", "a.tif"), "OLD"),
          ((finalDirOf "20251012_0000", "keep.txt"), "KEEP")]⟩ =
        .ok (fs', finalDirOf "20251012_0000") ∧
      fs'.dirs = [LOCAL_PROCESSED, finalDirOf "20251012_0000", LOCAL_EXPORTS] ∧
      fs'.lookupFile (finalDirOf "20251012_0000") "a.tif" = some "NEW" ∧
      (∀ q, (⟨[LOCAL_PROCESSED, finalDirOf "20251012_0000", LOCAL_EXPORTS],
         [((LOCAL_EXPORTS, "a.tif"), "NEW"), ((finalDirOf "20251012_0000", "a.tif"), "OLD"),
          ((finalDirOf "20251012_0000", "keep.txt"), "KEEP")]⟩ : FS).lookupFile LOCAL_EXPORTS q = none →
        (⟨[LOCAL_PROCESSED, finalDirOf "20251012_0000", LOCAL_EXPORTS],
         [((LOCAL_EXPORTS, "a.tif"), "NEW"), ((finalDirOf "20251012_0000", "a.tif"), "OLD"),
          ((finalDirOf "20251012_0000", "keep.txt"), "KEEP")]⟩ : FS).lookupFile PLOTS_DIR q = none →
        fs'.lookupFile (finalDirOf "20251012_0000") q =
          (⟨[LOCAL_PROCESSED, finalDirOf "20251012_0000", LOCAL_EXPORTS],
           [((LOCAL_EXPORTS, "a.tif"), "NEW"), ((finalDirOf "20251012_0000", "a.tif"), "OLD"),
            ((finalDirOf "20251012_0000", "keep.txt"), "KEEP")]⟩ : FS).lookupFile (finalDirOf "20251012_0000") q) :=
  C10_existing_run_dir_reused "20251012_0000" "a.tif" "NEW"
    ⟨[LOCAL_PROCESSED, finalDirOf "20251012_0000", LOCAL_EXPORTS],
     [((LOCAL_EXPORTS, "a.tif"), "NEW"), ((finalDirOf "20251012_0000", "a.tif"), "OLD"),
      ((finalDirOf "20251012_0000", "keep.txt"), "KEEP")]⟩
    (by decide) (by decide) (by decide) (by decide) (by decide)

-- ---------------------------------------------------------------------------
-- Claim theorems: relocation failure and the summary (C3, C6)
-- ---------------------------------------------------------------------------

/-- Every file the listing returns is one of the Drive's objects. -/
theorem list_drive_files_subset (drive : List DriveFile) (fname : String)
    (files : List DriveFile) (h : list_drive_files drive fname = .ok files) :
    ∀ f ∈ files, f ∈ drive := by
  unfold list_drive_files at h
  cases hf : drive.filter (isFolderMatch fname) with
  | nil =>
    rw [hf] at h
    exact Except.noConfusion h
  | cons g gs =>
    rw [hf] at h
    have h2 : (Except.ok (drive.filter (inFolder g.id)) : Except String (List DriveFile)) =
        .ok files := h
    intro f hmem
    rw [← Except.ok.inj h2] at hmem
    exact List.mem_of_mem_filter hmem

theorem fetchLoop_keeps_noSummary (localDir : String) :
    ∀ (entries : List DriveFile) (fs : FS),
      (∀ e ∈ entries, e.title ≠ "SUMMARY.txt") → noSummary fs →
      noSummary (fetchLoop localDir entries fs).1 := by
  intro entries
  induction entries with
  | nil => intro fs _ hns; exact hns
  | cons e rest ih =>
    intro fs htitle hns
    rw [fetchLoop]
    by_cases hfe : fs.hasFile localDir e.title = true
    · rw [if_pos hfe]
      exact ih fs (fun e' he' => htitle e' (List.mem_cons.mpr (Or.inr he'))) hns
    · rw [if_neg hfe]
      simp only
      refine ih _ (fun e' he' => htitle e' (List.mem_cons.mpr (Or.inr he'))) ?_
      intro d
      rw [FS.lookup_writeFile]
      rw [if_neg (fun hh => htitle e (List.mem_cons_self e rest) (prodSnd hh).symm)]
      exact hns d

theorem fetchAll_keeps_noSummary (entries : List DriveFile) (localDir : String) (fs : FS)
    (htitle : ∀ e ∈ entries, e.title ≠ "SUMMARY.txt") (hns : noSummary fs) :
    noSummary (fetchAll entries localDir fs).1 := by
  unfold fetchAll
  refine fetchLoop_keeps_noSummary localDir entries _ htitle ?_
  intro d
  rw [FS.lookup_makedirs]
  exact hns d

/-- A failing archival step leaves a filesystem that still holds no
SUMMARY.txt anywhere, if none was present when the step began. -/
theorem archiveStep_err_noSummary (fail : String → String → Bool) (ts : String)
    (fs : FS) (dd nn : String) (fsE : FS)
    (h : archiveStep fail ts fs = .error (dd, nn, fsE)) (hns : noSummary fs) :
    noSummary fsE := by
  unfold archiveStep at h
  cases hma : moveAll fail (finalDirOf ts) sourceFolders
      ((fs.makedirs LOCAL_PROCESSED).makedirs (finalDirOf ts)) with
  | ok fs4 =>
    rw [hma] at h
    have h2 : (Except.ok (fs4, finalDirOf ts) :
        Except (String × String × FS) (FS × String)) = .error (dd, nn, fsE) := h
    exact Except.noConfusion h2
  | error e =>
    rw [hma] at h
    have h2 : (Except.error e : Except (String × String × FS) (FS × String)) =
        .error (dd, nn, fsE) := h
    rw [Except.error.inj h2] at hma
    refine moveAll_keeps_noSummary_err fail (finalDirOf ts) sourceFolders _ dd nn fsE hma ?_
    intro d
    rw [FS.lookup_makedirs, FS.lookup_makedirs]
    exact hns d

/-- A successful archival step always returns the run directory path. -/
theorem archiveStep_ok_dir (fail : String → String → Bool) (ts : String)
    (fs fs4 : FS) (fd : String) (h : archiveStep fail ts fs = .ok (fs4, fd)) :
    fd = finalDirOf ts := by
  unfold archiveStep at h
  cases hma : moveAll fail (finalDirOf ts) sourceFolders
      ((fs.makedirs LOCAL_PROCESSED).makedirs (finalDirOf ts)) with
  | error e =>
    rw [hma] at h
    have h2 : (Except.error e : Except (String × String × FS) (FS × String)) =
        .ok (fs4, fd) := h
    exact Except.noConfusion h2
  | ok fs5 =>
    rw [hma] at h
    have h2 : (Except.ok (fs5, finalDirOf ts) :
        Except (String × String × FS) (FS × String)) = .ok (fs4, fd) := h
    have := Except.ok.inj h2
    exact (congrArg Prod.snd this).symm

/-- C3 as frozen is false on the code: when a move fails, the uncaught
exception kills the script before STEP 6, so SUMMARY.txt is not written.
Concretely: a one-file run whose only move fails ends in the relocation
error with the pre-archive filesystem on disk, and the run directory holds
no SUMMARY.txt. -/
theorem C3_counterexample :
    runPipeline
      (fun _ => [⟨"fid", EXPORT_FOLDER, folderMime, false, [], ""⟩,
                 ⟨"a", "a.tif", "image/tiff", false, ["fid"], "DATA"⟩])
      1 1 (fun fs => .ok fs) (fun dd _ => decide (dd = LOCAL_EXPORTS)) "20251012_0000" true
      ⟨[], []⟩ =
      .err (.relocationError LOCAL_EXPORTS "a.tif")
        ⟨[finalDirOf "20251012_0000", LOCAL_PROCESSED, LOCAL_EXPORTS],
         [((LOCAL_EXPORTS, "a.tif"), "DATA")]⟩ ∧
    (⟨[finalDirOf "20251012_0000", LOCAL_PROCESSED, LOCAL_EXPORTS],
      [((LOCAL_EXPORTS, "a.tif"), "DATA")]⟩ : FS).lookupFile
        (finalDirOf "20251012_0000") "SUMMARY.txt" = none :=
  ⟨by decide, by decide⟩

/-- C3 amended: when a move during the archival step fails, the run fails
with the relocation error and everything after the failing move is aborted,
including the Summary Writer: provided no SUMMARY.txt existed anywhere
beforehand, the processing script never creates one, and no remote entry is
titled SUMMARY.txt, the filesystem left on disk holds no SUMMARY.txt in any
directory — the summary step is not attempted. -/
theorem C3_relocation_aborts_no_summary (driveAt : Nat → List DriveFile) (W MW : Nat)
    (proc : FS → Except Unit FS) (fail : String → String → Bool)
    (ts : String) (fs0 : FS) (d n : String) (fs' : FS)
    (hns : noSummary fs0)
    (hproc : ∀ fs1 fs2, noSummary fs1 → proc fs1 = .ok fs2 → noSummary fs2)
    (hdrv : ∀ k f, f ∈ driveAt k → f.title ≠ "SUMMARY.txt")
    (hrun : runPipeline driveAt W MW proc fail ts true fs0 = .err (.relocationError d n) fs') :
    noSummary fs' := by
  unfold runPipeline at hrun
  rw [if_neg (by simp)] at hrun
  cases hw : waitForExports (fun k => list_drive_files (driveAt k) EXPORT_FOLDER) W MW with
  | none => rw [hw] at hrun; simp at hrun
  | some po =>
    rw [hw] at hrun
    cases po with
    | timeout a e => simp at hrun
    | notFound msg a => simp at hrun
    | found files a e =>
      have hrun1 : stepsFrom3 proc fail ts files fs0 = .err (.relocationError d n) fs' := hrun
      have hfiles : ∀ f ∈ files, f.title ≠ "SUMMARY.txt" := by
        obtain ⟨j, hj⟩ := pollAux_found_src
          (fun k => list_drive_files (driveAt k) EXPORT_FOLDER) W MW files a e (MW + 1) 0 0 hw
        intro f hf
        exact hdrv j f (list_drive_files_subset (driveAt j) EXPORT_FOLDER files hj f hf)
      have hns1 : noSummary (fetchAll files LOCAL_EXPORTS fs0).1 :=
        fetchAll_keeps_noSummary files LOCAL_EXPORTS fs0 hfiles hns
      rw [stepsFrom3] at hrun1
      cases hp : proc (fetchAll files LOCAL_EXPORTS fs0).1 with
      | error u =>
        rw [hp] at hrun1
        simp at hrun1
      | ok fs2 =>
        rw [hp] at hrun1
        have hrun2 : afterArchive ts files.length (archiveStep fail ts fs2) =
            .err (.relocationError d n) fs' := hrun1
        have hns2 : noSummary fs2 := hproc _ _ hns1 hp
        cases ha : archiveStep fail ts fs2 with
        | ok pr =>
          obtain ⟨fs4, fd⟩ := pr
          rw [ha, afterArchive] at hrun2
          simp at hrun2
        | error err =>
          obtain ⟨dd, nn, fsE⟩ := err
          rw [ha, afterArchive] at hrun2
          simp only [RunResult.err.injEq, RunError.relocationError.injEq] at hrun2
          rw [← hrun2.2]
          exact archiveStep_err_noSummary fail ts fs2 dd nn fsE ha hns2

theorem C3_relocation_aborts_no_summary_witness :
    noSummary ⟨[finalDirOf "20251012_0000", LOCAL_PROCESSED, LOCAL_EXPORTS],
      [((LOCAL_EXPORTS, "a.tif"), "DATA")]⟩ :=
  C3_relocation_aborts_no_summary
    (fun _ => [⟨"fid", EXPORT_FOLDER, folderMime, false, [], ""⟩,
               ⟨"a", "a.tif", "image/tiff", false, ["fid"], "DATA"⟩])
    1 1 (fun fs => .ok fs) (fun dd _ => decide (dd = LOCAL_EXPORTS)) "20251012_0000"
    ⟨[], []⟩ LOCAL_EXPORTS "a.tif"
    ⟨[finalDirOf "20251012_0000", LOCAL_PROCESSED, LOCAL_EXPORTS],
     [((LOCAL_EXPORTS, "a.tif"), "DATA")]⟩
    (fun _ => rfl)
    (fun fs1 fs2 hns1 hok => by rw [← Except.ok.inj hok]; exact hns1)
    (by
      intro k f hf
      rcases List.mem_cons.mp hf with h1 | h2
      · rw [h1]; decide
      · rw [show f = ⟨"a", "a.tif", "image/tiff", false, ["fid"], "DATA"⟩ by simpa using h2]
        decide)
    (by decide)

/-- C6: every successful run writes SUMMARY.txt into the run directory with
the fixed schema — header line, Timestamp line, Files processed line, and
the four-line static step list — and the reported count is the length of
the listing returned by the successful poll, independent of how many files
the Fetcher actually downloaded versus skipped. -/
theorem C6_summary_reports_poll_count (driveAt : Nat → List DriveFile) (W MW : Nat)
    (proc : FS → Except Unit FS) (fail : String → String → Bool)
    (ts : String) (fs0 : FS) (files : List DriveFile) (a e : Nat) (fs' : FS) (fd : String)
    (hw : waitForExports (fun k => list_drive_files (driveAt k) EXPORT_FOLDER) W MW =
      some (.found files a e))
    (hrun : runPipeline driveAt W MW proc fail ts true fs0 = .ok fs' fd) :
    fd = finalDirOf ts ∧
    fs'.lookupFile fd "SUMMARY.txt" =
      some ("SAR Tren Maya Analysis - Pipeline Run\n" ++
        "Timestamp: " ++ ts ++ "\n" ++
        "Files processed: " ++ toString files.length ++ "\n" ++
        "Steps:\n" ++
        " 1) Exported from GEE\n" ++
        " 2) Downloaded from Drive\n" ++
        " 3) Processed locally (filters, time-series, change maps)\n" ++
        " 4) Stored in outputs folder\n") := by
  unfold runPipeline at hrun
  rw [if_neg (by simp), hw] at hrun
  have hrun1 : stepsFrom3 proc fail ts files fs0 = .ok fs' fd := hrun
  rw [stepsFrom3] at hrun1
  cases hp : proc (fetchAll files LOCAL_EXPORTS fs0).1 with
  | error u => rw [hp] at hrun1; simp at hrun1
  | ok fs2 =>
    rw [hp] at hrun1
    have hrun2 : afterArchive ts files.length (archiveStep fail ts fs2) = .ok fs' fd := hrun1
    cases ha : archiveStep fail ts fs2 with
    | error err =>
      obtain ⟨dd, nn, fsE⟩ := err
      rw [ha, afterArchive] at hrun2
      simp at hrun2
    | ok pr =>
      obtain ⟨fs4, fdd⟩ := pr
      rw [ha, afterArchive] at hrun2
      simp only [RunResult.ok.injEq] at hrun2
      obtain ⟨hfs, hfd⟩ := hrun2
      have hfdd : fdd = finalDirOf ts := archiveStep_ok_dir fail ts fs2 fs4 fdd ha
      constructor
      · rw [← hfd, hfdd]
      · rw [← hfs, ← hfd]
        rw [FS.lookup_writeFile, if_pos rfl]
        rfl

def C6drive : Nat → List DriveFile :=
  fun _ => [⟨"fid", EXPORT_FOLDER, folderMime, false, [], ""⟩,
            ⟨"a", "a.tif", "image/tiff", false, ["fid"], "DATA"⟩]

def C6run : RunResult :=
  runPipeline C6drive 1 1 (fun fs => .ok fs) (fun _ _ => false) "20251012_0000" true ⟨[], []⟩

def C6fs : FS :=
  match C6run with
  | .ok f _ => f
  | .err _ f => f

set_option maxRecDepth 8192 in
theorem C6_summary_reports_poll_count_witness :
    finalDirOf "20251012_0000" = finalDirOf "20251012_0000" ∧
    C6fs.lookupFile (finalDirOf "20251012_0000") "SUMMARY.txt" =
      some ("SAR Tren Maya Analysis - Pipeline Run\n" ++
        "Timestamp: " ++ "20251012_0000" ++ "\n" ++
        "Files processed: " ++ toString (1 : Nat) ++ "\n" ++
        "Steps:\n" ++
        " 1) Exported from GEE\n" ++
        " 2) Downloaded from Drive\n" ++
        " 3) Processed locally (filters, time-series, change maps)\n" ++
        " 4) Stored in outputs folder\n") :=
  C6_summary_reports_poll_count C6drive 1 1 (fun fs => .ok fs) (fun _ _ => false)
    "20251012_0000" ⟨[], []⟩ [⟨"a", "a.tif", "image/tiff", false, ["fid"], "DATA"⟩] 1 0
    C6fs (finalDirOf "20251012_0000") (by decide) (by decide)
